import Mathlib

/-!
# k8s-overlay-patch: overlay matching, validation and patch application

A shallow embedding of `pkg/patch/patch.go`, `pkg/util/yaml.go` and `pkg/types/overlay.go`.

Conventions.
* Go `string` is `String`; a Go `error` is `Option String` (its message, `none` for nil).
* A Go `interface{}` holding decoded YAML is a `Value`; the nil interface is `Value.null`.
* A pointer `*types.K8sObjectOverlay` is an address `Addr` read through a heap
  `Addr → K8sObjectOverlay`; the map `matches` of `YAMLManifestPatch` is keyed by address.
* Third-party libraries (yaml.v3, sigs.k8s.io/yaml, protojson) and the packages of the
  repository that are not part of the sources at hand (`pkg/object`, `pkg/helm`,
  `pkg/tpath`, `util.Errors`, `util.PathFromString`) are either fields of `Deps` or
  definitions marked `Modelled from the spec`.
-/

namespace OverlayPatch

/-! ## Strings -/

/-- Go `unicode.IsSpace`: the Unicode White_Space code points, trimmed by `strings.TrimSpace`. -/
def isSpace (c : Char) : Bool :=
  let n := c.toNat
  (decide (9 ≤ n) && decide (n ≤ 13)) || decide (n = 32) || decide (n = 0x85) ||
  decide (n = 0xA0) || decide (n = 0x1680) || (decide (0x2000 ≤ n) && decide (n ≤ 0x200A)) ||
  decide (n = 0x2028) || decide (n = 0x2029) || decide (n = 0x202F) || decide (n = 0x205F) ||
  decide (n = 0x3000)

/-- Characters of `strings.TrimSpace`: leading and trailing white space removed. -/
def trimSpaceChars (cs : List Char) : List Char :=
  ((cs.dropWhile isSpace).reverse.dropWhile isSpace).reverse

/-- Go `strings.TrimSpace`. -/
def TrimSpace (s : String) : String := ⟨trimSpaceChars s.data⟩

/-- Go `strings.Contains s sub`, as a proposition: `sub` occurs in `s` as a contiguous block. -/
def Contains (s sub : String) : Prop := sub.data <:+: s.data

/-- Go `strings.Join`. -/
def Join : List String → String → String
  | [], _ => ""
  | [a], _ => a
  | a :: b :: rest, sep => a ++ sep ++ Join (b :: rest) sep

/-! ## Decoded YAML -/

/-- A decoded YAML/JSON document: what yaml.v3 stores into `map[any]any` and what
`structpb.Value.AsInterface` returns. `null` is the Go nil interface. Numbers are restricted to
integers and mapping keys to strings. -/
inductive Value where
  | null
  | bool (b : Bool)
  | num (n : Int)
  | str (s : String)
  | seq (items : List Value)
  | map (fields : List (String × Value))

/-! ## `pkg/types` -/

/-- `types.K8sObjectOverlayPatch`. The field `Verbatim` is read by `patch.go` and set by
`patch_test.go`. -/
structure K8sObjectOverlayPatch where
  Path : String
  Value : String
  Verbatim : String

/-- `types.K8sObjectOverlay`. -/
structure K8sObjectOverlay where
  ApiVersion : String
  Kind : String
  Name : String
  Patches : List K8sObjectOverlayPatch
  Optional : Bool

/-- A pointer to an overlay record. -/
abbrev Addr := Nat

/-! ## `pkg/object` -/

/-- Modelled from the spec: `object.K8sObject` (package `pkg/object` is missing). A manifest
object exposes its identity (kind, its own namespace, name) and a re-encoder: `yaml` is what
the method `YAML()` returns, `debug` what `YAMLDebugString()` returns. -/
structure K8sObject where
  Kind : String
  Namespace : String
  Name : String
  yaml : Except String String
  debug : String

/-- Modelled from the spec: `object.Hash` (package `pkg/object` is missing), the identity key
of §3, the tuple (kind, namespace, name). -/
def Hash (kind ns name : String) : String × String × String := (kind, ns, name)

/-- Modelled from the spec: the method `K8sObject.Hash` (package `pkg/object` is missing): the
identity key computed from the object's kind, its own namespace and its name. -/
def K8sObject.Hash (o : K8sObject) : String × String × String :=
  OverlayPatch.Hash o.Kind o.Namespace o.Name

/-- The method `K8sObject.YAML`. -/
def K8sObject.YAML (o : K8sObject) : Except String String := o.yaml

/-! ## External collaborators -/

/-- The functions and constants `patch.go` and `yaml.go` import from third-party libraries and
from packages outside the sources at hand. -/
structure Deps where
  /-- The constant `helm.YAMLSeparator`. -/
  YAMLSeparator : String
  /-- The function `object.ParseK8sObjectsFromYAMLManifest`. -/
  ParseK8sObjectsFromYAMLManifest : String → Except String (List K8sObject)
  /-- The method `K8sObjects.Keys`. -/
  Keys : List K8sObject → List String
  /-- The function `yaml.Unmarshal` of gopkg.in/yaml.v3 into a `map[any]any`. -/
  yamlUnmarshal : String → Except String Value
  /-- The yaml.v3 encoder with indent 2. -/
  yamlEncode : Value → Except String String
  /-- The function `yaml.YAMLToJSON` of sigs.k8s.io/yaml. -/
  YAMLToJSON : String → Except String String
  /-- The protojson decoder into a `structpb.Value`; the flag is `DiscardUnknown`. -/
  protoUnmarshal : Bool → String → Value → Except String Value
  /-- The attempt of `pkg/tpath` to read a string as nested YAML structure. -/
  tryUnmarshalString : String → Option Value
  /-- The separator `util.Errors` puts between messages. -/
  errSeparator : String

/-! ## `util.Errors` -/

/-- Modelled from the spec: `util.Errors` (file `pkg/util/errs.go` is missing), the run-scoped
error collection of §4.7, kept as the list of the collected messages in encounter order. -/
abbrev Errors := List String

/-- Modelled from the spec: `util.AppendErr` (file `pkg/util/errs.go` is missing): an error is
appended to the collection, a nil error is not. -/
def AppendErr (errs : Errors) (err : Option String) : Errors :=
  match err with
  | none => errs
  | some e => errs ++ [e]

/-- Modelled from the spec: `util.AppendErrs` (file `pkg/util/errs.go` is missing). -/
def AppendErrs (errs more : Errors) : Errors := errs ++ more

/-- Modelled from the spec: `util.NewErrs` (file `pkg/util/errs.go` is missing). -/
def NewErrs (err : String) : Errors := [err]

/-- Modelled from the spec: `Errors.ToError` (file `pkg/util/errs.go` is missing): the
aggregate returned at the end of a run, absent when nothing was collected (§7), otherwise one
error whose message lists every collected message. -/
def ToError (sep : String) (errs : Errors) : Option String :=
  match errs with
  | [] => none
  | e :: es => some (Join (e :: es) sep)

/-! ## `pkg/patch`: matching and validation -/

/-- `overlayMatches` (patch.go 116-124). -/
def overlayMatches (overlay : K8sObjectOverlay) (obj : K8sObject) (defaultNamespace : String) :
    Bool :=
  let oh := obj.Hash
  if oh = Hash overlay.Kind defaultNamespace overlay.Name ∨
      oh = Hash overlay.Kind "" overlay.Name then
    true
  else
    false

/-- The message of `fmt.Errorf` in `validateOverlay` (patch.go 185). -/
def validationMsg (overlayIndex patchIndex : Nat) : String :=
  "value and verbatim cannot be used together in overlay " ++ toString overlayIndex ++
    " patch " ++ toString patchIndex

/-- The loop of `validateOverlay` (patch.go 183-187), from patch index `patchIndex` on. -/
def validateOverlayLoop (overlayIndex : Nat) :
    Nat → List K8sObjectOverlayPatch → Errors → Errors
  | _, [], errs => errs
  | patchIndex, patch :: rest, errs =>
    if patch.Value ≠ "" ∧ patch.Verbatim ≠ "" then
      validateOverlayLoop overlayIndex (patchIndex + 1) rest
        (AppendErr errs (some (validationMsg overlayIndex patchIndex)))
    else
      validateOverlayLoop overlayIndex (patchIndex + 1) rest errs

/-- `validateOverlay` (patch.go 181-189). -/
def validateOverlay (deps : Deps) (overlayIndex : Nat) (overlay : K8sObjectOverlay) :
    Option String :=
  ToError deps.errSeparator (validateOverlayLoop overlayIndex 0 overlay.Patches [])

/-! ## `util.PathFromString` -/

/-- Scanner of `PathFromString`: `cur` holds the characters of the element being read, in
reverse; `inBracket` tells whether an opening bracket is still unclosed. -/
def splitPath : List Char → Bool → List Char → List String
  | [], _, cur => if cur = [] then [] else [String.mk cur.reverse]
  | '\\' :: '.' :: cs, false, cur => splitPath cs false ('.' :: cur)
  | '.' :: cs, false, cur =>
    if cur = [] then splitPath cs false [] else String.mk cur.reverse :: splitPath cs false []
  | '[' :: cs, _, cur => splitPath cs true ('[' :: cur)
  | ']' :: cs, _, cur => splitPath cs false (']' :: cur)
  | c :: cs, inBracket, cur => splitPath cs inBracket (c :: cur)

/-- Modelled from the spec: `util.PathFromString` (file `pkg/util/path.go` is missing), the
tokenizer of §4.1: the path is cut at every `.` outside brackets; inside `[...]` a `.` has no
special meaning, and the test `TestPatchYAMLConfigMap` writes a literal dot of a key as `\.`. -/
def PathFromString (path : String) : List String := splitPath path.data false []

/-- A path segment (§3 PathSegment). -/
inductive Seg where
  | key (name : String)
  | field (field value : String)
  | pattern (pattern : String)

/-- Cuts the inside of a selector at every unescaped `:`; `\:` stands for a literal colon. -/
def splitColon : List Char → List Char → List String
  | [], cur => [String.mk cur.reverse]
  | '\\' :: ':' :: cs, cur => splitColon cs (':' :: cur)
  | ':' :: cs, cur => String.mk cur.reverse :: splitColon cs []
  | c :: cs, cur => splitColon cs (c :: cur)

/-- Whether a list of characters has a bracket in it. -/
def hasBracket (cs : List Char) : Bool := cs.any (fun c => c = '[' ∨ c = ']')

/-- Modelled from the spec: reading one path element as a segment (package `pkg/tpath` is
missing), §4.1: `[field:value]` is a field selector, `[token]` a pattern selector, anything
else a key; unbalanced brackets and more than one unescaped colon are parse errors. -/
def parseSeg (s : String) : Except String Seg :=
  match s.data with
  | '[' :: rest =>
    match rest.reverse with
    | ']' :: innerRev =>
      if hasBracket innerRev then .error ("unbalanced brackets in path element " ++ s)
      else
        match splitColon innerRev.reverse [] with
        | [p] => .ok (Seg.pattern p)
        | [f, v] => .ok (Seg.field f v)
        | _ => .error ("ambiguous selector in path element " ++ s)
    | _ => .error ("unbalanced brackets in path element " ++ s)
  | cs => if hasBracket cs then .error ("unbalanced brackets in path element " ++ s)
          else .ok (Seg.key s)

/-- Reads every element of a path as a segment, root to leaf. -/
def parseSegs : List String → Except String (List Seg)
  | [] => .ok []
  | s :: rest =>
    match parseSeg s with
    | .error e => .error e
    | .ok sg =>
      match parseSegs rest with
      | .error e => .error e
      | .ok sgs => .ok (sg :: sgs)

/-! ## `pkg/tpath`: selector resolution -/

/-- Lookup of a field in a mapping. -/
def fieldGet : List (String × Value) → String → Option Value
  | [], _ => none
  | (k, v) :: rest, key => if k = key then some v else fieldGet rest key

/-- Writes a field of a mapping: overwritten in place if present, added otherwise. -/
def fieldSet : List (String × Value) → String → Value → List (String × Value)
  | [], key, x => [(key, x)]
  | (k, v) :: rest, key, x => if k = key then (k, x) :: rest else (k, v) :: fieldSet rest key x

/-- Removes a field from a mapping. -/
def fieldDel : List (String × Value) → String → List (String × Value)
  | [], _ => []
  | (k, v) :: rest, key => if k = key then fieldDel rest key else (k, v) :: fieldDel rest key

/-- The text a scalar renders as; mappings, sequences and null have none. -/
def render : Value → Option String
  | .str s => some s
  | .num n => some (toString n)
  | .bool b => some (toString b)
  | _ => none

/-- Whether a value is a mapping. -/
def isMapping : Value → Bool
  | .map _ => true
  | _ => false

/-- Index of the first element of a list that satisfies `p`. -/
def firstIdx {α : Type} (p : α → Bool) : List α → Option Nat
  | [] => none
  | a :: rest => if p a then some 0 else (firstIdx p rest).map (· + 1)

/-- Whether an element is a mapping whose entry `field`, rendered as text, is exactly `value`. -/
def matchesField (field value : String) (el : Value) : Bool :=
  match el with
  | .map fields =>
    match fieldGet fields field with
    | some x => decide (render x = some value)
    | none => false
  | _ => false

/-- Whether `sub` occurs in `s` as a contiguous block (unanchored match). -/
def containsChars (sub : List Char) : List Char → Bool
  | [] => sub.isPrefixOf []
  | c :: cs => sub.isPrefixOf (c :: cs) || containsChars sub cs

/-- Whether the textual rendering of an element contains `pattern`. -/
def matchesPattern (pattern : String) (el : Value) : Bool :=
  match render el with
  | some t => containsChars pattern.data t.data
  | none => false

/-- Value of a string of decimal digits read after the prefix valued `acc`. -/
def digitsValue : List Char → Nat → Option Nat
  | [], acc => some acc
  | c :: cs, acc => if c.isDigit then digitsValue cs (10 * acc + (c.toNat - 48)) else none

/-- A non-negative integer literal. -/
def parseNat (s : String) : Option Nat :=
  match s.data with
  | [] => none
  | cs => digitsValue cs 0

/-- The locator of a child within its container: a field of a mapping, an index of a
sequence, or the position one past the last element of a sequence (append intent). -/
inductive Locator where
  | field (key : String)
  | index (i : Nat)
  | append

/-- Index of the first element whose textual rendering contains `pattern`, or a lookup error. -/
def scanPattern (pattern : String) (items : List Value) : Except String Locator :=
  match firstIdx (matchesPattern pattern) items with
  | some i => .ok (Locator.index i)
  | none => .error ("lookup error: no element matches " ++ pattern)

/-- Modelled from the spec: the selector matcher of `pkg/tpath` (the package is missing), §4.2.
A field selector needs a sequence of mappings and takes the first element whose field renders
as the value. A pattern selector that is a non-negative integer not smaller than the current
length is the append location (the spec names the integer equal to the length, the package
comment of `patch.go`, ADD 1, any integer beyond the items of the list); any other pattern takes
the first element whose rendering contains it. No match is a lookup error. -/
def resolve (items : List Value) : Seg → Except String Locator
  | .key name => .error ("lookup error: key " ++ name ++ " applied to a sequence")
  | .field field value =>
    if items.all isMapping then
      match firstIdx (matchesField field value) items with
      | some i => .ok (Locator.index i)
      | none => .error ("lookup error: no element with " ++ field ++ ":" ++ value)
    else .error "lookup error: field selector on a sequence that is not of mappings"
  | .pattern pattern =>
    match parseNat pattern with
    | some n => if items.length ≤ n then .ok Locator.append else scanPattern pattern items
    | none => scanPattern pattern items

/-! ## `pkg/tpath`: navigation -/

/-- Modelled from the spec: the result of `tpath.GetPathContext` (package `pkg/tpath` is
missing), the Location of §3: the locator `last` of the addressed child within its owning
container, and the locators `trail` that lead from `root` to that container. -/
structure PathContext where
  root : Value
  trail : List Locator
  last : Locator

/-- Descent through a segment that is not the last one (§4.3): a key needs a mapping that has
it, a selector needs a sequence and an existing element. -/
def childAt (node : Value) (seg : Seg) : Except String (Locator × Value) :=
  match node, seg with
  | .map fields, .key name =>
    match fieldGet fields name with
    | some child => .ok (Locator.field name, child)
    | none => .error ("lookup error: intermediate path missing: " ++ name)
  | .seq items, .field f v =>
    match resolve items (.field f v) with
    | .ok (Locator.index i) =>
      match items.get? i with
      | some child => .ok (Locator.index i, child)
      | none => .error "lookup error: index out of range"
    | .ok _ => .error "lookup error: append is illegal before the last segment"
    | .error e => .error e
  | .seq items, .pattern p =>
    match resolve items (.pattern p) with
    | .ok (Locator.index i) =>
      match items.get? i with
      | some child => .ok (Locator.index i, child)
      | none => .error "lookup error: index out of range"
    | .ok _ => .error "lookup error: append is illegal before the last segment"
    | .error e => .error e
  | _, .key name => .error ("lookup error: " ++ name ++ " applied to a node that is no mapping")
  | _, _ => .error "lookup error: selector applied to a node that is no sequence"

/-- Resolution of the last segment (§4.3): a key on a mapping need not exist, a selector is
resolved by `resolve`, append included. -/
def resolveLast (node : Value) (seg : Seg) : Except String Locator :=
  match node, seg with
  | .map _, .key name => .ok (Locator.field name)
  | .seq items, .field f v => resolve items (.field f v)
  | .seq items, .pattern p => resolve items (.pattern p)
  | _, .key name => .error ("lookup error: " ++ name ++ " applied to a node that is no mapping")
  | _, _ => .error "lookup error: selector applied to a node that is no sequence"

/-- Walks the segments from `node`: the locators down to the owning container and the locator
of the addressed child. -/
def navigate : Value → List Seg → Except String (List Locator × Locator)
  | _, [] => .error "lookup error: empty path"
  | node, [seg] =>
    match resolveLast node seg with
    | .ok l => .ok ([], l)
    | .error e => .error e
  | node, seg :: next :: rest =>
    match childAt node seg with
    | .error e => .error e
    | .ok (l, child) =>
      match navigate child (next :: rest) with
      | .ok (trail, last) => .ok (l :: trail, last)
      | .error e => .error e

/-- Modelled from the spec: `tpath.GetPathContext` (package `pkg/tpath` is missing), the tree
navigator of §4.3 fed by the path parser of §4.1. It only reads the tree. The third argument is
the flag `applyPatches` passes as `true`. -/
def GetPathContext (root : Value) (path : List String) (_createMissing : Bool) :
    Except String PathContext :=
  match parseSegs path with
  | .error e => .error e
  | .ok segs =>
    match navigate root segs with
    | .ok (trail, last) => .ok ⟨root, trail, last⟩
    | .error e => .error e

/-! ## `pkg/tpath`: mutation -/

/-- The child a locator designates in a container. -/
def getChild (node : Value) (l : Locator) : Except String Value :=
  match node, l with
  | .map fields, .field key =>
    match fieldGet fields key with
    | some child => .ok child
    | none => .error ("lookup error: no field " ++ key)
  | .seq items, .index i =>
    match items.get? i with
    | some child => .ok child
    | none => .error "lookup error: index out of range"
  | _, _ => .error "lookup error: locator does not fit the container"

/-- Writes a child into a container (§4.5): replace an existing field or element, insert a new
field, or insert a new trailing element for the append locator. -/
def setChild (node : Value) (l : Locator) (x : Value) : Except String Value :=
  match node, l with
  | .map fields, .field key => .ok (.map (fieldSet fields key x))
  | .seq items, .index i =>
    if i < items.length then .ok (.seq (items.set i x))
    else .error "lookup error: index out of range"
  | .seq items, .append => .ok (.seq (items ++ [x]))
  | _, _ => .error "lookup error: locator does not fit the container"

/-- Removes a child from a container (§4.5): the field from its mapping, or the element from its
sequence, the following elements shifting down. -/
def delChild (node : Value) (l : Locator) : Except String Value :=
  match node, l with
  | .map fields, .field key => .ok (.map (fieldDel fields key))
  | .seq items, .index i =>
    if i < items.length then .ok (.seq (items.eraseIdx i))
    else .error "lookup error: index out of range"
  | _, _ => .error "lookup error: nothing to delete at the locator"

/-- Shallow merge (§4.5): every field of `new` is written into `old`. -/
def shallowMerge (old new : List (String × Value)) : List (String × Value) :=
  new.foldl (fun acc kv => fieldSet acc kv.1 kv.2) old

/-- The value the writer stores: with `tryUnmarshal` a string that reads as nested structure is
replaced by that structure (§4.4), without it the value is stored as it is. -/
def storedValue (deps : Deps) (value : Value) (tryUnmarshal : Bool) : Value :=
  if tryUnmarshal then
    match value with
    | .str s =>
      match deps.tryUnmarshalString s with
      | some structured => structured
      | none => value
    | _ => value
  else value

/-- The mutation of the owning container (§4.5). A nil value deletes the child. With `merge` set,
a mapping written onto an element that is a mapping is merged into it field by field (the
shallow merge of §4.5); without it the child is overwritten by the value. -/
def writeChild (deps : Deps) (container : Value) (l : Locator) (value : Value)
    (merge tryUnmarshal : Bool) : Except String Value :=
  match value with
  | .null => delChild container l
  | _ =>
    let vv := storedValue deps value tryUnmarshal
    if merge then
      match l, getChild container l, vv with
      | .index _, .ok (.map old), .map new => setChild container l (.map (shallowMerge old new))
      | _, _, _ => setChild container l vv
    else setChild container l vv

/-- Applies `f` to the container reached from `node` through `trail` and puts the result back
along the way. -/
def rebuild (f : Value → Except String Value) : Value → List Locator → Except String Value
  | node, [] => f node
  | node, l :: trail =>
    match getChild node l with
    | .error e => .error e
    | .ok child =>
      match rebuild f child trail with
      | .error e => .error e
      | .ok child' => setChild node l child'

/-- Modelled from the spec: `tpath.WritePathContext` (package `pkg/tpath` is missing), the tree
mutator of §4.5 acting on the Location that navigation produced. The tree is mutated in place in
Go; here the mutated root is returned. The third argument is the flag `applyPatches` passes as
`false`: the shallow merge of §4.5 is what the writer does when it is set, and the test
`UpdateInteriorNode` of `patch_test.go` pins what is written when it is not: the matched
element is overwritten. The fourth argument is `tryUnmarshal`. -/
def WritePathContext (deps : Deps) (nc : PathContext) (value : Value)
    (merge tryUnmarshal : Bool) : Except String Value :=
  rebuild (fun container => writeChild deps container nc.last value merge tryUnmarshal)
    nc.root nc.trail

/-! ## `pkg/util/yaml.go` and `pkg/protomarshal` -/

/-- `protomarshal.Unmarshal` (protomarshal.go 27-29). -/
def protomarshalUnmarshal {M : Type} (unmarshal : Bool → String → M → Except String M)
    (b : String) (m : M) : Except String M :=
  unmarshal false b m

/-- `protomarshal.UnmarshalAllowUnknown` (protomarshal.go 31-33). -/
def protomarshalUnmarshalAllowUnknown {M : Type}
    (unmarshal : Bool → String → M → Except String M) (b : String) (m : M) : Except String M :=
  unmarshal true b m

/-- `util.UnmarshalWithJSONPB` (yaml.go 41-61): the returned error and the state of `out`
after the call. `M` is the message type; `toJSON` is `yaml.YAMLToJSON` and `unmarshal` the
protojson decoder. -/
def UnmarshalWithJSONPB {M : Type} (toJSON : String → Except String String)
    (unmarshal : Bool → String → M → Except String M) (y : String) (out : M)
    (allowUnknownField : Bool) : Option String × M :=
  if y = "" then (none, out)
  else
    match toJSON y with
    | .error err => (some err, out)
    | .ok jb =>
      match (if allowUnknownField then protomarshalUnmarshalAllowUnknown unmarshal jb out
             else protomarshalUnmarshal unmarshal jb out) with
      | .error err => (some err, out)
      | .ok out' => (none, out')

/-! ## `pkg/patch`: patch application -/

/-- The value and the `tryUnmarshal` flag a patch yields (patch.go 205-218), or the decoding
error. The zero `structpb.Value` is `Value.null`, and `AsInterface` is the identity. -/
def patchValue (deps : Deps) (p : K8sObjectOverlayPatch) : Except String (Value × Bool) :=
  if p.Verbatim ≠ "" ∧ p.Value = "" then .ok (Value.str p.Verbatim, false)
  else
    match UnmarshalWithJSONPB deps.YAMLToJSON deps.protoUnmarshal p.Value Value.null false with
    | (some err, _) => .error err
    | (none, v) => .ok (v, true)

/-- One iteration of the loop of `applyPatches` (patch.go 204-233) on the working tree `bo` and
the errors collected so far. -/
def applyPatch (deps : Deps) (bo : Value) (errs : Errors) (p : K8sObjectOverlayPatch) :
    Value × Errors :=
  match patchValue deps p with
  | .error err => (bo, AppendErr errs (some err))
  | .ok (value, tryUnmarshal) =>
    if TrimSpace p.Path = "" then (bo, errs)
    else
      match GetPathContext bo (PathFromString p.Path) true with
      | .error err => (bo, AppendErr errs (some err))
      | .ok inc =>
        match WritePathContext deps inc value false tryUnmarshal with
        | .error err => (bo, AppendErr errs (some err))
        | .ok bo' => (bo', errs)

/-- The loop of `applyPatches` (patch.go 204-233). -/
def applyPatchesLoop (deps : Deps) : Value → Errors → List K8sObjectOverlayPatch → Value × Errors
  | bo, errs, [] => (bo, errs)
  | bo, errs, p :: rest =>
    applyPatchesLoop deps (applyPatch deps bo errs p).1 (applyPatch deps bo errs p).2 rest

/-- `applyPatches` (patch.go 193-242). -/
def applyPatches (deps : Deps) (base : K8sObject) (patches : List K8sObjectOverlayPatch) :
    String × Errors :=
  match base.YAML with
  | .error err => ("", NewErrs err)
  | .ok yml =>
    match deps.yamlUnmarshal yml with
    | .error err => ("", NewErrs err)
    | .ok bo =>
      match deps.yamlEncode (applyPatchesLoop deps bo [] patches).1 with
      | .error err => ("", AppendErr (applyPatchesLoop deps bo [] patches).2 (some err))
      | .ok out => (out, (applyPatchesLoop deps bo [] patches).2)

/-! ## `pkg/patch`: the run -/

/-- The loop over the overlays that validates them (patch.go 136-138), from index `i` on. -/
def validateLoop (deps : Deps) (heap : Addr → K8sObjectOverlay) :
    Nat → List Addr → Errors → Errors
  | _, [], errs => errs
  | i, overlay :: rest, errs =>
    validateLoop deps heap (i + 1) rest (AppendErr errs (validateOverlay deps i (heap overlay)))

/-- The state of the loop over the objects: the output built so far, the errors, and the map
`matches` from overlay pointers to the objects matched. -/
structure RunState where
  ret : String
  errs : Errors
  matched : Addr → List K8sObject

/-- The state of the inner loop over the overlays for one object: the current document `oys`
of the object, the errors and the map `matches`. -/
structure ObjState where
  oys : String
  errs : Errors
  matched : Addr → List K8sObject

/-- The inner loop over the overlays for the object `obj` (patch.go 149-156). -/
def overlayLoop (deps : Deps) (heap : Addr → K8sObjectOverlay) (defaultNamespace : String)
    (obj : K8sObject) : ObjState → List Addr → ObjState
  | st, [] => st
  | st, overlay :: rest =>
    if overlayMatches (heap overlay) obj defaultNamespace then
      overlayLoop deps heap defaultNamespace obj
        { oys := (applyPatches deps obj (heap overlay).Patches).1
          errs := AppendErrs st.errs (applyPatches deps obj (heap overlay).Patches).2
          matched := Function.update st.matched overlay (st.matched overlay ++ [obj]) }
        rest
    else overlayLoop deps heap defaultNamespace obj st rest

/-- The message of `fmt.Errorf` at patch.go 145. -/
def objectToYAMLMsg (err debug : String) : String :=
  "object to YAML error (" ++ err ++ ") for base object: \n" ++ debug

/-- The loop over the objects (patch.go 142-160). Writing to a `strings.Builder` never fails,
so the error branch of `WriteString` is not taken. -/
def objectLoop (deps : Deps) (heap : Addr → K8sObjectOverlay) (defaultNamespace : String)
    (overlays : List Addr) : RunState → List K8sObject → RunState
  | st, [] => st
  | st, obj :: rest =>
    match obj.YAML with
    | .error err =>
      objectLoop deps heap defaultNamespace overlays
        { st with errs := AppendErr st.errs (some (objectToYAMLMsg err obj.debug)) } rest
    | .ok oy =>
      let inner := overlayLoop deps heap defaultNamespace obj ⟨oy, st.errs, st.matched⟩ overlays
      objectLoop deps heap defaultNamespace overlays
        ⟨st.ret ++ (inner.oys ++ deps.YAMLSeparator), inner.errs, inner.matched⟩ rest

/-- The message of `fmt.Errorf` at patch.go 170-171. -/
def noMatchMsg (kind name : String) (keys : List String) : String :=
  "overlay for " ++ kind ++ ":" ++ name ++
    " does not match any object in output manifest. Available objects are:\n" ++ Join keys "\n"

/-- The message of `fmt.Errorf` at patch.go 173-174. -/
def multipleMatchMsg (kind name : String) (keys : List String) : String :=
  "overlay for " ++ kind ++ ":" ++ name ++ " matches multiple objects in output manifest:\n" ++
    Join keys "\n"

/-- The error one overlay adds in the final loop (patch.go 164-175), given the objects
recorded for it in `matches`. -/
def cardinalityErr (overlay : K8sObjectOverlay) (matched : List K8sObject)
    (keys : List String) : Option String :=
  if matched.length = 0 then
    if overlay.Optional then none
    else some (noMatchMsg overlay.Kind overlay.Name keys)
  else if matched.length > 1 then some (multipleMatchMsg overlay.Kind overlay.Name keys)
  else none

/-- The final loop over the overlays (patch.go 162-176). -/
def cardinalityLoop (heap : Addr → K8sObjectOverlay) (matched : Addr → List K8sObject)
    (keys : List String) : Errors → List Addr → Errors
  | errs, [] => errs
  | errs, overlay :: rest =>
    cardinalityLoop heap matched keys
      (AppendErr errs (cardinalityErr (heap overlay) (matched overlay) keys)) rest

/-- The state after the loop over the objects of a run that parsed the manifest into `objs`
(patch.go 136-160). -/
def runState (deps : Deps) (heap : Addr → K8sObjectOverlay) (objs : List K8sObject)
    (defaultNamespace : String) (overlays : List Addr) : RunState :=
  objectLoop deps heap defaultNamespace overlays
    ⟨"", validateLoop deps heap 0 overlays [], fun _ => []⟩ objs

/-- The errors collected by a run that parsed the manifest into `objs` (patch.go 136-176), in
encounter order, before `ToError` folds them into the returned error. -/
def runErrors (deps : Deps) (heap : Addr → K8sObjectOverlay) (objs : List K8sObject)
    (defaultNamespace : String) (overlays : List Addr) : Errors :=
  cardinalityLoop heap (runState deps heap objs defaultNamespace overlays).matched
    (deps.Keys objs) (runState deps heap objs defaultNamespace overlays).errs overlays

/-- `YAMLManifestPatch` (patch.go 129-179): the returned manifest and the returned error. The
slice `overlays` holds pointers, read through `heap`. -/
def YAMLManifestPatch (deps : Deps) (heap : Addr → K8sObjectOverlay) (baseYAML : String)
    (defaultNamespace : String) (overlays : List Addr) : String × Option String :=
  match deps.ParseK8sObjectsFromYAMLManifest baseYAML with
  | .error err => ("", some err)
  | .ok objs =>
    ((runState deps heap objs defaultNamespace overlays).ret,
      ToError deps.errSeparator (runErrors deps heap objs defaultNamespace overlays))

/-! ## Reading a tree along a path -/

/-- The container reached from `node` through the locators `trail`. -/
def getAt : Value → List Locator → Except String Value
  | node, [] => .ok node
  | node, l :: trail =>
    match getChild node l with
    | .error e => .error e
    | .ok child => getAt child trail

/-- Descent through a list of segments none of which is the last of its path: the locators
passed and the node reached. -/
def descend : Value → List Seg → Except String (List Locator × Value)
  | node, [] => .ok ([], node)
  | node, seg :: rest =>
    match childAt node seg with
    | .error e => .error e
    | .ok (l, child) =>
      match descend child rest with
      | .error e => .error e
      | .ok (trail, sub) => .ok (l :: trail, sub)

/-! ## `pkg/util/yaml.go`: `IsYAMLEmpty` -/

/-- Go `strings.Split` at the line feed, on characters: a text with `n` line feeds has `n + 1`
lines. -/
def splitLines : List Char → List (List Char)
  | [] => [[]]
  | c :: cs =>
    if c = '\n' then [] :: splitLines cs
    else
      match splitLines cs with
      | l :: ls => (c :: l) :: ls
      | [] => [[c]]

/-- Go `strings.Split(s, "\n")`. -/
def SplitLines (s : String) : List String := (splitLines s.data).map String.mk

/-- Go `strings.HasPrefix`. -/
def HasPrefix (s pre : String) : Bool := pre.data.isPrefixOf s.data

/-- The loop of `IsYAMLEmpty` (yaml.go 215-220): `yc` collects the lines that are neither
comments nor document separators. -/
def isYAMLEmptyLoop : List String → List String → List String
  | [], yc => yc
  | l :: rest, yc =>
    if HasPrefix (TrimSpace l) "#" = false ∧ HasPrefix (TrimSpace l) "---" = false then
      isYAMLEmptyLoop rest (yc ++ [l])
    else isYAMLEmptyLoop rest yc

/-- `util.IsYAMLEmpty` (yaml.go 212-223). -/
def IsYAMLEmpty (y : String) : Bool :=
  let res := TrimSpace (Join (isYAMLEmptyLoop (SplitLines y) []) "\n")
  decide (res = "\x7b\x7d") || decide (res = "")

/-! ## Scenarios

Concrete inputs on which the definitions above are evaluated. The external collaborators are
replaced by stand-ins that cover the documents of the scenarios. -/

/-- Stand-in for the value decoder (YAMLToJSON, protojson, `AsInterface`) on the values of the
scenarios: the blocks `fooPort: 15015` and `foo: true` are mappings, a string of digits is a
number, any other text a string. -/
def demoDecode (s : String) : Value :=
  if s = "fooPort: 15015" then .map [("fooPort", .num 15015)]
  else if s = "foo: true\n" then .map [("foo", .bool true)]
  else
    match parseNat s with
    | some n => .num n
    | none => .str s

/-- The text of a scalar in the stand-in encoder. -/
def demoScalar : Value → String
  | .str s => s
  | .num n => toString n
  | .bool b => toString b
  | _ => "null"

/-- Stand-in for the YAML encoder on mappings nested in mappings: the lines of the document,
indented by `indent`; `fuel` bounds the nesting depth. -/
def demoLines : Nat → Nat → Value → List String
  | 0, _, _ => []
  | fuel + 1, indent, .map fields =>
    (fields.map (fun kv =>
      match kv.2 with
      | .map inner =>
        (String.mk (List.replicate indent ' ') ++ kv.1 ++ ":") ::
          demoLines fuel (indent + 2) (.map inner)
      | v => [String.mk (List.replicate indent ' ') ++ kv.1 ++ ": " ++ demoScalar v])).flatten
  | _ + 1, indent, v => [String.mk (List.replicate indent ' ') ++ demoScalar v]

/-- Stand-in for the YAML encoder: every line of `demoLines` followed by a line feed. -/
def demoEncode (v : Value) : String :=
  String.join ((demoLines 8 0 v).map (fun l => l ++ "\n"))

/-- The document of the ConfigMap `cm` of the scenarios. -/
def cmYAML : String :=
  "data:\n  a: x\nkind: ConfigMap\nmetadata:\n  name: cm\n  namespace: ns\n"

/-- The decoded ConfigMap `cm`. -/
def cmTree : Value :=
  .map [("data", .map [("a", .str "x")]), ("kind", .str "ConfigMap"),
    ("metadata", .map [("name", .str "cm"), ("namespace", .str "ns")])]

/-- The manifest object of the ConfigMap `cm`. -/
def cmObject : K8sObject := ⟨"ConfigMap", "ns", "cm", .ok cmYAML, cmYAML⟩

/-- Stand-ins for the external collaborators: the manifest `cmYAML` parses into `cmObject` and
decodes into `cmTree`, the empty manifest has no object, and the text `foo: true` reads as
nested structure. -/
def demoDeps : Deps where
  YAMLSeparator := "\n---\n"
  ParseK8sObjectsFromYAMLManifest := fun s =>
    if s = cmYAML then .ok [cmObject]
    else if s = "" then .ok []
    else .error "manifest outside the scenarios"
  Keys := fun objs => objs.map (fun o => o.Kind ++ ":" ++ o.Namespace ++ ":" ++ o.Name)
  yamlUnmarshal := fun s => if s = cmYAML then .ok cmTree else .error "document outside the scenarios"
  yamlEncode := fun v => .ok (demoEncode v)
  YAMLToJSON := fun s => .ok s
  protoUnmarshal := fun _ jb _ => .ok (demoDecode jb)
  tryUnmarshalString := fun s =>
    if s = "foo: true\n" then some (.map [("foo", .bool true)]) else none
  errSeparator := ", "

/-- Two overlays for the ConfigMap `cm` at addresses 0 and 1, a mandatory overlay for an absent
Secret at address 2, and an optional overlay for an absent Service elsewhere. -/
def demoHeap : Addr → K8sObjectOverlay
  | 0 => ⟨"v1", "ConfigMap", "cm", [⟨"data.b", "y", ""⟩], false⟩
  | 1 => ⟨"v1", "ConfigMap", "cm", [⟨"data.c", "z", ""⟩], false⟩
  | 2 => ⟨"v1", "Secret", "absent", [⟨"data.k", "v", ""⟩], false⟩
  | _ => ⟨"v1", "Service", "absent", [⟨"spec.type", "", "ClusterIP"⟩], true⟩

/-- The overlay of `TestYAMLManifestPatchValidation`, at every address. -/
def invalidHeap : Addr → K8sObjectOverlay :=
  fun _ => ⟨"", "", "", [⟨"", "a", "b"⟩], false⟩

/-- The tree under `a` of the base of `TestPatchYAMLManifestSuccess`. -/
def baseTree : Value :=
  .map [("a", .map [("b", .seq [.map [("name", .str "n1"), ("value", .str "v1")],
    .map [("name", .str "n2"), ("list", .seq [.str "v1", .str "v2", .str "v3_regex"])]]),
    ("c", .null)])]

/-- The tree under `ports` of the base of `TestPatchYAMLManifestRealYAMLSuccess`, below a
container named `galley`. -/
def galleyTree : Value :=
  .map [("containers", .seq [.map [("name", .str "deleteThis"), ("foo", .str "bar")],
    .map [("name", .str "galley"),
      ("ports", .seq [.map [("containerPort", .num 443)], .map [("containerPort", .num 15014)],
        .map [("containerPort", .num 9901)]])]])]

/-- A sequence in which two elements carry the same name. -/
def dupTree : Value :=
  .map [("b", .seq [.map [("name", .str "n0"), ("value", .str "v0")],
    .map [("name", .str "n1"), ("value", .str "v1")],
    .map [("name", .str "n1"), ("value", .str "v9")]])]

/-- An overlay for the ConfigMap `cm` whose only patch sets both a value and a verbatim text,
at every address. -/
def bothHeap : Addr → K8sObjectOverlay :=
  fun _ => ⟨"v1", "ConfigMap", "cm", [⟨"data.b", "y", "w"⟩], false⟩

/-- An overlay for the ConfigMap `cm` without patches, at every address. -/
def noPatchHeap : Addr → K8sObjectOverlay :=
  fun _ => ⟨"v1", "ConfigMap", "cm", [], false⟩

/-- The document of a second ConfigMap `cm`, without namespace. -/
def cm0YAML : String := "data:\n  a: w\nkind: ConfigMap\nmetadata:\n  name: cm\n"

/-- The decoded ConfigMap `cm` without namespace. -/
def cm0Tree : Value :=
  .map [("data", .map [("a", .str "w")]), ("kind", .str "ConfigMap"),
    ("metadata", .map [("name", .str "cm")])]

/-- The manifest object of the ConfigMap `cm` without namespace. -/
def cm0Object : K8sObject := ⟨"ConfigMap", "", "cm", .ok cm0YAML, cm0YAML⟩

/-- A manifest of two documents: the ConfigMap `cm` in namespace `ns` and the one without
namespace. -/
def twoYAML : String := cmYAML ++ "---\n" ++ cm0YAML

/-- Stand-ins for the external collaborators that also cover the manifest `twoYAML`. -/
def twoDeps : Deps where
  YAMLSeparator := demoDeps.YAMLSeparator
  ParseK8sObjectsFromYAMLManifest := fun s =>
    if s = twoYAML then .ok [cmObject, cm0Object]
    else demoDeps.ParseK8sObjectsFromYAMLManifest s
  Keys := demoDeps.Keys
  yamlUnmarshal := fun s => if s = cm0YAML then .ok cm0Tree else demoDeps.yamlUnmarshal s
  yamlEncode := demoDeps.yamlEncode
  YAMLToJSON := demoDeps.YAMLToJSON
  protoUnmarshal := demoDeps.protoUnmarshal
  tryUnmarshalString := demoDeps.tryUnmarshalString
  errSeparator := demoDeps.errSeparator

/-! # Theorems -/

theorem AppendErr_some (errs : Errors) (e : String) : AppendErr errs (some e) = errs ++ [e] := rfl

theorem AppendErr_none (errs : Errors) : AppendErr errs none = errs := rfl

theorem AppendErr_eq (errs : Errors) (e : Option String) : AppendErr errs e = errs ++ e.toList := by
  cases e <;> simp [AppendErr]

/-- The messages `validateOverlay` collects from patch index `j` on. -/
theorem validateOverlayLoop_eq (i : Nat) (ps : List K8sObjectOverlayPatch) :
    ∀ (j : Nat) (errs : Errors), validateOverlayLoop i j ps errs =
      errs ++ ((ps.enumFrom j).filter
        (fun q => decide (q.2.Value ≠ "" ∧ q.2.Verbatim ≠ ""))).map
        (fun q => validationMsg i q.1) := by
  induction ps with
  | nil => intro j errs; simp [validateOverlayLoop]
  | cons p rest ih =>
    intro j errs
    by_cases h : p.Value ≠ "" ∧ p.Verbatim ≠ ""
    · simp only [validateOverlayLoop, if_pos h, ih, AppendErr_some, List.enumFrom_cons]
      rw [List.filter_cons_of_pos (by simpa using h)]
      simp
    · simp only [validateOverlayLoop, if_neg h, ih, List.enumFrom_cons]
      rw [List.filter_cons_of_neg (by simpa using h)]

theorem contains_refl (s : String) : Contains s s := List.infix_refl _

theorem contains_trans {a b c : String} (h1 : Contains a b) (h2 : Contains b c) : Contains a c :=
  List.IsInfix.trans h2 h1

theorem contains_append_left (a b : String) : Contains (a ++ b) a := by
  show a.data <:+: (a ++ b).data
  rw [String.data_append]
  exact (List.prefix_append a.data b.data).isInfix

theorem contains_append_right (a b : String) : Contains (a ++ b) b := by
  show b.data <:+: (a ++ b).data
  rw [String.data_append]
  exact (List.suffix_append a.data b.data).isInfix

theorem contains_join {l : List String} {x : String} (sep : String) (h : x ∈ l) :
    Contains (Join l sep) x := by
  induction l with
  | nil => cases h
  | cons a rest ih =>
    cases rest with
    | nil =>
      simp at h; subst h; simpa [Join] using contains_refl x
    | cons b rest' =>
      simp only [Join]
      rcases List.mem_cons.1 h with h | h
      · subst h
        rw [String.append_assoc]
        exact contains_append_left _ _
      · exact contains_trans (contains_append_right _ _) (ih h)

theorem validateLoop_eq (deps : Deps) (heap : Addr → K8sObjectOverlay) (overlays : List Addr) :
    ∀ (i : Nat) (errs : Errors), validateLoop deps heap i overlays errs =
      errs ++ (overlays.enumFrom i).filterMap (fun q => validateOverlay deps q.1 (heap q.2)) := by
  induction overlays with
  | nil => intro i errs; simp [validateLoop]
  | cons a rest ih =>
    intro i errs
    simp only [validateLoop, ih, AppendErr_eq, List.enumFrom_cons, List.filterMap_cons]
    cases validateOverlay deps i (heap a) <;> simp

/-- The overlays of a list that match an object. -/
theorem overlayLoop_errs (deps : Deps) (heap : Addr → K8sObjectOverlay) (ns : String)
    (obj : K8sObject) (overlays : List Addr) :
    ∀ st : ObjState, (overlayLoop deps heap ns obj st overlays).errs =
      st.errs ++ ((overlays.filter (fun a => overlayMatches (heap a) obj ns)).map
        (fun a => (applyPatches deps obj (heap a).Patches).2)).flatten := by
  induction overlays with
  | nil => intro st; simp [overlayLoop]
  | cons a rest ih =>
    intro st
    by_cases h : overlayMatches (heap a) obj ns = true
    · simp [overlayLoop, h, ih, AppendErrs]
    · simp [overlayLoop, h, ih]

theorem overlayLoop_oys (deps : Deps) (heap : Addr → K8sObjectOverlay) (ns : String)
    (obj : K8sObject) (overlays : List Addr) :
    ∀ st : ObjState, (overlayLoop deps heap ns obj st overlays).oys =
      match (overlays.filter (fun a => overlayMatches (heap a) obj ns)).getLast? with
      | some a => (applyPatches deps obj (heap a).Patches).1
      | none => st.oys := by
  induction overlays with
  | nil => intro st; simp [overlayLoop]
  | cons a rest ih =>
    intro st
    by_cases h : overlayMatches (heap a) obj ns = true
    · simp only [overlayLoop, h, if_true, ih, List.filter_cons_of_pos]
      cases hr : List.filter (fun a => overlayMatches (heap a) obj ns) rest with
      | nil => simp
      | cons b l =>
        rw [List.getLast?_cons_cons]
        cases hl : (b :: l).getLast? with
        | none => simp at hl
        | some c => rfl
    · simp [overlayLoop, h, ih]

theorem overlayLoop_matched (deps : Deps) (heap : Addr → K8sObjectOverlay) (ns : String)
    (obj : K8sObject) (overlays : List Addr) (hnd : overlays.Nodup) :
    ∀ (st : ObjState) (a : Addr), (overlayLoop deps heap ns obj st overlays).matched a =
      if a ∈ overlays ∧ overlayMatches (heap a) obj ns = true then st.matched a ++ [obj]
      else st.matched a := by
  induction overlays with
  | nil => intro st a; simp [overlayLoop]
  | cons b rest ih =>
    intro st a
    have hb : b ∉ rest := (List.nodup_cons.1 hnd).1
    have ih' := ih (List.nodup_cons.1 hnd).2
    by_cases h : overlayMatches (heap b) obj ns = true
    · simp only [overlayLoop, h, if_true, ih']
      by_cases hab : a = b
      · subst hab; simp [hb, h]
      · simp [hab, Function.update_noteq hab]
    · simp only [overlayLoop]
      rw [if_neg h, ih']
      by_cases hab : a = b
      · subst hab; simp [hb, h]
      · simp [hab]

theorem string_join_cons (a : String) (l : List String) :
    String.join (a :: l) = a ++ String.join l := by
  have h : ∀ (l : List String) (init : String),
      List.foldl (fun r s => r ++ s) init l = init ++ List.foldl (fun r s => r ++ s) "" l := by
    intro l
    induction l with
    | nil => intro init; simp
    | cons b rest ih =>
      intro init
      rw [List.foldl_cons, List.foldl_cons, ih (init ++ b), ih ("" ++ b)]
      simp [String.append_assoc]
  simp only [String.join, List.foldl_cons]
  rw [h l ("" ++ a)]
  simp

/-- The document the loop over the objects writes for one object: nothing when the object does
not serialize, otherwise the output of the last matching overlay, or the object's own YAML
when no overlay matches, followed by the separator. -/
theorem objectLoop_ret (deps : Deps) (heap : Addr → K8sObjectOverlay) (ns : String)
    (overlays : List Addr) (objs : List K8sObject) :
    ∀ st : RunState, (objectLoop deps heap ns overlays st objs).ret =
      st.ret ++ String.join (objs.map (fun obj =>
        match obj.YAML with
        | .error _ => ""
        | .ok oy =>
          (match (overlays.filter (fun a => overlayMatches (heap a) obj ns)).getLast? with
            | some a => (applyPatches deps obj (heap a).Patches).1
            | none => oy) ++ deps.YAMLSeparator)) := by
  induction objs with
  | nil => intro st; simp [objectLoop, String.join]
  | cons obj rest ih =>
    intro st
    rw [List.map_cons, string_join_cons]
    cases hy : obj.YAML with
    | error e =>
      simp only [objectLoop, hy]
      rw [ih]
      simp
    | ok oy =>
      simp only [objectLoop, hy]
      rw [ih, overlayLoop_oys]
      simp [String.append_assoc]

theorem objectLoop_errs (deps : Deps) (heap : Addr → K8sObjectOverlay) (ns : String)
    (overlays : List Addr) (objs : List K8sObject) :
    ∀ st : RunState, (objectLoop deps heap ns overlays st objs).errs =
      st.errs ++ (objs.map (fun obj =>
        match obj.YAML with
        | .error err => [objectToYAMLMsg err obj.debug]
        | .ok _ => ((overlays.filter (fun a => overlayMatches (heap a) obj ns)).map
            (fun a => (applyPatches deps obj (heap a).Patches).2)).flatten)).flatten := by
  induction objs with
  | nil => intro st; simp [objectLoop]
  | cons obj rest ih =>
    intro st
    cases hy : obj.YAML with
    | error e =>
      simp only [objectLoop, hy]
      rw [ih]
      simp [AppendErr, hy]
    | ok oy =>
      simp only [objectLoop, hy]
      rw [ih, overlayLoop_errs]
      simp [hy]

theorem objectLoop_matched (deps : Deps) (heap : Addr → K8sObjectOverlay) (ns : String)
    (overlays : List Addr) (hnd : overlays.Nodup) (objs : List K8sObject) :
    ∀ (st : RunState) (a : Addr), (objectLoop deps heap ns overlays st objs).matched a =
      if a ∈ overlays then
        st.matched a ++ objs.filter (fun obj =>
          (match obj.YAML with | .error _ => false | .ok _ => true) &&
            overlayMatches (heap a) obj ns)
      else st.matched a := by
  induction objs with
  | nil => intro st a; simp [objectLoop]
  | cons obj rest ih =>
    intro st a
    cases hy : obj.YAML with
    | error e =>
      simp only [objectLoop, hy]
      rw [ih]
      simp [hy]
    | ok oy =>
      simp only [objectLoop, hy]
      rw [ih]
      simp only [overlayLoop_matched deps heap ns obj overlays hnd]
      by_cases ha : a ∈ overlays
      · by_cases hm : overlayMatches (heap a) obj ns = true
        · simp [ha, hm, hy]
        · simp [ha, hm, hy]
      · simp [ha]

theorem cardinalityLoop_eq (heap : Addr → K8sObjectOverlay) (matched : Addr → List K8sObject)
    (keys : List String) (overlays : List Addr) :
    ∀ errs : Errors, cardinalityLoop heap matched keys errs overlays =
      errs ++ overlays.filterMap (fun a => cardinalityErr (heap a) (matched a) keys) := by
  induction overlays with
  | nil => intro errs; simp [cardinalityLoop]
  | cons a rest ih =>
    intro errs
    simp only [cardinalityLoop, ih, AppendErr_eq, List.filterMap_cons]
    cases cardinalityErr (heap a) (matched a) keys <;> simp

theorem fieldGet_fieldSet_same (fields : List (String × Value)) (k : String) (x : Value) :
    fieldGet (fieldSet fields k x) k = some x := by
  induction fields with
  | nil => simp [fieldSet, fieldGet]
  | cons kv rest ih =>
    obtain ⟨k0, v0⟩ := kv
    by_cases h : k0 = k
    · simp [fieldSet, fieldGet, h]
    · simp [fieldSet, fieldGet, h, ih]

theorem fieldGet_fieldSet_other (fields : List (String × Value)) {k k' : String} (x : Value)
    (h : k' ≠ k) : fieldGet (fieldSet fields k x) k' = fieldGet fields k' := by
  induction fields with
  | nil => simp [fieldSet, fieldGet, Ne.symm h]
  | cons kv rest ih =>
    obtain ⟨k0, v0⟩ := kv
    by_cases h0 : k0 = k
    · subst h0
      simp [fieldSet, fieldGet, Ne.symm h]
    · by_cases h1 : k0 = k'
      · subst h1
        simp [fieldSet, fieldGet, h0]
      · simp [fieldSet, fieldGet, h0, h1, ih]

theorem fieldGet_fieldDel_same (fields : List (String × Value)) (k : String) :
    fieldGet (fieldDel fields k) k = none := by
  induction fields with
  | nil => simp [fieldDel, fieldGet]
  | cons kv rest ih =>
    obtain ⟨k0, v0⟩ := kv
    by_cases h : k0 = k
    · simp [fieldDel, h, ih]
    · simp [fieldDel, fieldGet, h, ih]

theorem firstIdx_eq_some {α : Type} (p : α → Bool) :
    ∀ (l : List α) (i : Nat), firstIdx p l = some i ↔
      (∃ a, l[i]? = some a ∧ p a = true) ∧ ∀ j, j < i → ∀ b, l[j]? = some b → p b = false := by
  intro l
  induction l with
  | nil => intro i; simp [firstIdx]
  | cons a rest ih =>
    intro i
    by_cases ha : p a = true
    · simp only [firstIdx, ha, if_true, Option.some.injEq]
      constructor
      · intro h; subst h
        exact ⟨⟨a, by simp, ha⟩, fun j hj => absurd hj (Nat.not_lt_zero j)⟩
      · rintro ⟨_, hmin⟩
        cases i with
        | zero => rfl
        | succ n =>
          have := hmin 0 (Nat.succ_pos n) a (by simp)
          rw [ha] at this; cases this
    · have ha' : p a = false := by simpa using ha
      simp only [firstIdx, ha', Bool.false_eq_true, if_false, Option.map_eq_some']
      constructor
      · rintro ⟨n, hn, rfl⟩
        obtain ⟨⟨b, hb, hpb⟩, hmin⟩ := (ih n).1 hn
        refine ⟨⟨b, by simpa using hb, hpb⟩, ?_⟩
        intro j hj c hc
        cases j with
        | zero => simp at hc; subst hc; exact ha'
        | succ m => exact hmin m (Nat.lt_of_succ_lt_succ hj) c (by simpa using hc)
      · rintro ⟨⟨b, hb, hpb⟩, hmin⟩
        cases i with
        | zero => simp at hb; subst hb; rw [ha'] at hpb; cases hpb
        | succ n =>
          refine ⟨n, (ih n).2 ⟨⟨b, by simpa using hb, hpb⟩, ?_⟩, rfl⟩
          intro j hj c hc
          exact hmin (j + 1) (Nat.succ_lt_succ hj) c (by simpa using hc)

theorem firstIdx_eq_none {α : Type} (p : α → Bool) :
    ∀ (l : List α), firstIdx p l = none ↔ ∀ a ∈ l, p a = false := by
  intro l
  induction l with
  | nil => simp [firstIdx]
  | cons a rest ih =>
    by_cases ha : p a = true
    · simp [firstIdx, ha]
    · have ha' : p a = false := by simpa using ha
      simp [firstIdx, ha', ih]

theorem firstIdx_lt {α : Type} (p : α → Bool) {l : List α} {i : Nat}
    (h : firstIdx p l = some i) : i < l.length := by
  obtain ⟨⟨a, ha, _⟩, _⟩ := (firstIdx_eq_some p l i).1 h
  exact (List.getElem?_eq_some_iff.1 ha).1

theorem ToError_eq_some {sep : String} {errs : Errors} (h : errs ≠ []) :
    ToError sep errs = some (Join errs sep) := by
  cases errs with
  | nil => exact absurd rfl h
  | cons e es => rfl

theorem ToError_contains {sep : String} {errs : Errors} {e x : String} (he : e ∈ errs)
    (hx : Contains e x) : ∃ msg, ToError sep errs = some msg ∧ Contains msg x :=
  ⟨Join errs sep, ToError_eq_some (List.ne_nil_of_mem he),
    contains_trans (contains_join sep he) hx⟩

theorem overlayLoop_noMatch (deps : Deps) (heap : Addr → K8sObjectOverlay) (ns : String)
    (obj : K8sObject) (overlays : List Addr)
    (hno : ∀ a ∈ overlays, overlayMatches (heap a) obj ns = false) :
    ∀ st : ObjState, overlayLoop deps heap ns obj st overlays = st := by
  induction overlays with
  | nil => intro st; rfl
  | cons a rest ih =>
    intro st
    have ha : overlayMatches (heap a) obj ns = false := hno a (List.mem_cons_self _ _)
    simp only [overlayLoop, ha]
    exact ih (fun b hb => hno b (List.mem_cons_of_mem _ hb)) st

theorem objectLoop_noMatch_matched (deps : Deps) (heap : Addr → K8sObjectOverlay) (ns : String)
    (overlays : List Addr) (objs : List K8sObject)
    (hno : ∀ a ∈ overlays, ∀ o ∈ objs, overlayMatches (heap a) o ns = false) :
    ∀ st : RunState, (objectLoop deps heap ns overlays st objs).matched = st.matched := by
  induction objs with
  | nil => intro st; rfl
  | cons obj rest ih =>
    intro st
    have ih' := ih (fun a ha o ho => hno a ha o (List.mem_cons_of_mem _ ho))
    cases hy : obj.YAML with
    | error e => simp only [objectLoop, hy]; rw [ih']
    | ok oy =>
      simp only [objectLoop, hy]
      rw [ih', overlayLoop_noMatch deps heap ns obj overlays
        (fun a ha => hno a ha obj (List.mem_cons_self _ _))]

theorem filter_eq_nil_of_forall {α : Type} (p : α → Bool) (l : List α)
    (h : ∀ x ∈ l, p x = false) : l.filter p = [] := by
  rw [List.filter_eq_nil_iff]
  intro x hx
  simp [h x hx]

theorem snd_mem_of_mem_enumFrom {α : Type} {l : List α} {j : Nat} {q : Nat × α}
    (h : q ∈ l.enumFrom j) : q.2 ∈ l := by
  induction l generalizing j with
  | nil => simp at h
  | cons a rest ih =>
    rw [List.enumFrom_cons] at h
    rcases List.mem_cons.1 h with h | h
    · subst h; exact List.mem_cons_self _ _
    · exact List.mem_cons_of_mem _ (ih h)

theorem runErrors_eq (deps : Deps) (heap : Addr → K8sObjectOverlay) (objs : List K8sObject)
    (ns : String) (overlays : List Addr) :
    runErrors deps heap objs ns overlays =
      overlays.enum.filterMap (fun q => validateOverlay deps q.1 (heap q.2)) ++
      (objs.map (fun obj =>
        match obj.YAML with
        | .error err => [objectToYAMLMsg err obj.debug]
        | .ok _ => ((overlays.filter (fun a => overlayMatches (heap a) obj ns)).map
            (fun a => (applyPatches deps obj (heap a).Patches).2)).flatten)).flatten ++
      overlays.filterMap (fun a => cardinalityErr (heap a)
        ((runState deps heap objs ns overlays).matched a) (deps.Keys objs)) := by
  simp only [runErrors, cardinalityLoop_eq]
  congr 1
  simp only [runState, objectLoop_errs, validateLoop_eq, List.nil_append, List.enum]

/-- C1: `overlayMatches` is true exactly when the hash of the object is the hash of the overlay
in the default namespace or the hash of the overlay without namespace, and false in every other
case. -/
theorem overlayMatches_iff (overlay : K8sObjectOverlay) (obj : K8sObject)
    (defaultNamespace : String) :
    (overlayMatches overlay obj defaultNamespace = true ↔
      (obj.Hash = Hash overlay.Kind defaultNamespace overlay.Name ∨
        obj.Hash = Hash overlay.Kind "" overlay.Name)) ∧
    (overlayMatches overlay obj defaultNamespace = false ↔
      ¬ (obj.Hash = Hash overlay.Kind defaultNamespace overlay.Name ∨
        obj.Hash = Hash overlay.Kind "" overlay.Name)) := by
  unfold overlayMatches
  by_cases h : obj.Hash = Hash overlay.Kind defaultNamespace overlay.Name ∨
      obj.Hash = Hash overlay.Kind "" overlay.Name
  · simp [h]
  · simp [h]

/-- C2: when the manifest parses into objects that all serialize and the overlay pointers are
pairwise distinct, the returned error is the aggregate of the validation errors, the errors of
the patches applied, and then, overlay by overlay in list order, one match-cardinality error
for exactly the overlays that match no object and are not optional, or that match more than one
object; an overlay matching exactly one object and an optional overlay matching none add
nothing. -/
theorem cardinality_error_iff (deps : Deps) (heap : Addr → K8sObjectOverlay)
    (baseYAML defaultNamespace : String) (overlays : List Addr) (objs : List K8sObject)
    (hparse : deps.ParseK8sObjectsFromYAMLManifest baseYAML = .ok objs)
    (hser : ∀ o ∈ objs, ∃ y, o.YAML = .ok y)
    (hnd : overlays.Nodup) :
    (YAMLManifestPatch deps heap baseYAML defaultNamespace overlays).2 =
      ToError deps.errSeparator
        (overlays.enum.filterMap (fun q => validateOverlay deps q.1 (heap q.2)) ++
          (objs.map (fun obj =>
            ((overlays.filter (fun a => overlayMatches (heap a) obj defaultNamespace)).map
              (fun a => (applyPatches deps obj (heap a).Patches).2)).flatten)).flatten ++
          overlays.filterMap (fun a =>
            if (objs.filter (fun o => overlayMatches (heap a) o defaultNamespace)).length = 0 ∧
                (heap a).Optional = false then
              some (noMatchMsg (heap a).Kind (heap a).Name (deps.Keys objs))
            else if 1 < (objs.filter
                (fun o => overlayMatches (heap a) o defaultNamespace)).length then
              some (multipleMatchMsg (heap a).Kind (heap a).Name (deps.Keys objs))
            else none)) := by
  simp only [YAMLManifestPatch, hparse, runErrors_eq]
  congr 2
  · congr 2
    apply List.map_congr_left
    intro obj hobj
    obtain ⟨y, hy⟩ := hser obj hobj
    simp [hy]
  · apply List.filterMap_congr
    intro a ha
    have hm : (runState deps heap objs defaultNamespace overlays).matched a =
        objs.filter (fun o => overlayMatches (heap a) o defaultNamespace) := by
      simp only [runState, objectLoop_matched deps heap defaultNamespace overlays hnd, if_pos ha,
        List.nil_append]
      apply List.filter_congr
      intro o ho
      obtain ⟨y, hy⟩ := hser o ho
      simp [hy]
    rw [hm]
    unfold cardinalityErr
    by_cases h0 : (objs.filter (fun o => overlayMatches (heap a) o defaultNamespace)).length = 0
    · cases ho : (heap a).Optional <;> simp [h0, ho]
    · have : ¬ ((objs.filter (fun o => overlayMatches (heap a) o defaultNamespace)).length = 0 ∧
          (heap a).Optional = false) := fun h => h0 h.1
      rw [if_neg h0, if_neg this]

/-- C2, witnessed on the ConfigMap scenario with four distinct overlays. -/
theorem cardinality_error_iff_witness :
    demoDeps.ParseK8sObjectsFromYAMLManifest cmYAML = .ok [cmObject] ∧
    (∀ o ∈ [cmObject], ∃ y, o.YAML = .ok y) ∧ [0, 2, 3].Nodup ∧
    (YAMLManifestPatch demoDeps demoHeap cmYAML "ns" [0, 2, 3]).2 =
      ToError demoDeps.errSeparator
        ([0, 2, 3].enum.filterMap (fun q => validateOverlay demoDeps q.1 (demoHeap q.2)) ++
          ([cmObject].map (fun obj =>
            (([0, 2, 3].filter (fun a => overlayMatches (demoHeap a) obj "ns")).map
              (fun a => (applyPatches demoDeps obj (demoHeap a).Patches).2)).flatten)).flatten ++
          [0, 2, 3].filterMap (fun a =>
            if ([cmObject].filter (fun o => overlayMatches (demoHeap a) o "ns")).length = 0 ∧
                (demoHeap a).Optional = false then
              some (noMatchMsg (demoHeap a).Kind (demoHeap a).Name (demoDeps.Keys [cmObject]))
            else if 1 < ([cmObject].filter
                (fun o => overlayMatches (demoHeap a) o "ns")).length then
              some (multipleMatchMsg (demoHeap a).Kind (demoHeap a).Name
                (demoDeps.Keys [cmObject]))
            else none)) :=
  ⟨rfl, fun o ho => by simp at ho; subst ho; exact ⟨cmYAML, rfl⟩, by decide,
    cardinality_error_iff demoDeps demoHeap cmYAML "ns" [0, 2, 3] [cmObject] rfl
      (fun o ho => by simp at ho; subst ho; exact ⟨cmYAML, rfl⟩) (by decide)⟩

/-- C3: when the manifest parses into objects that serialize, and every overlay is optional,
matches no object and has no patch with both value and verbatim, the run returns no error and
the manifest unmodified: the original YAML of every object, each followed by the separator. -/
theorem optional_unmatched_unmodified (deps : Deps) (heap : Addr → K8sObjectOverlay)
    (baseYAML defaultNamespace : String) (overlays : List Addr) (objs : List K8sObject)
    (hparse : deps.ParseK8sObjectsFromYAMLManifest baseYAML = .ok objs)
    (hser : ∀ o ∈ objs, ∃ y, o.YAML = .ok y)
    (hopt : ∀ a ∈ overlays, (heap a).Optional = true)
    (hno : ∀ a ∈ overlays, ∀ o ∈ objs, overlayMatches (heap a) o defaultNamespace = false)
    (hval : ∀ a ∈ overlays, ∀ p ∈ (heap a).Patches, p.Value = "" ∨ p.Verbatim = "") :
    YAMLManifestPatch deps heap baseYAML defaultNamespace overlays =
      (String.join (objs.map (fun o =>
        (match o.YAML with
          | .ok y => y
          | .error _ => "") ++ deps.YAMLSeparator)), none) := by
  have hret : (runState deps heap objs defaultNamespace overlays).ret =
      String.join (objs.map (fun o =>
        (match o.YAML with
          | .ok y => y
          | .error _ => "") ++ deps.YAMLSeparator)) := by
    simp only [runState, objectLoop_ret, String.empty_append]
    congr 1
    apply List.map_congr_left
    intro o ho
    obtain ⟨y, hy⟩ := hser o ho
    rw [filter_eq_nil_of_forall _ _ (fun a ha => hno a ha o ho)]
    simp [hy]
  have herr : runErrors deps heap objs defaultNamespace overlays = [] := by
    rw [runErrors_eq]
    have h1 : overlays.enum.filterMap (fun q => validateOverlay deps q.1 (heap q.2)) = [] := by
      rw [List.filterMap_eq_nil_iff]
      intro q hq
      have hmem : q.2 ∈ overlays := by
        exact snd_mem_of_mem_enumFrom hq
      simp only [validateOverlay, validateOverlayLoop_eq, List.nil_append]
      have : ((heap q.2).Patches.enumFrom 0).filter
          (fun r => decide (r.2.Value ≠ "" ∧ r.2.Verbatim ≠ "")) = [] := by
        apply filter_eq_nil_of_forall
        intro r hr
        have hr2 : r.2 ∈ (heap q.2).Patches := snd_mem_of_mem_enumFrom hr
        rcases hval q.2 hmem r.2 hr2 with h | h <;> simp [h]
      rw [this]
      rfl
    have h2 : (objs.map (fun obj =>
        match obj.YAML with
        | .error err => [objectToYAMLMsg err obj.debug]
        | .ok _ => ((overlays.filter (fun a => overlayMatches (heap a) obj defaultNamespace)).map
            (fun a => (applyPatches deps obj (heap a).Patches).2)).flatten)).flatten = [] := by
      rw [List.flatten_eq_nil_iff]
      intro l hl
      obtain ⟨o, ho, rfl⟩ := List.mem_map.1 hl
      obtain ⟨y, hy⟩ := hser o ho
      rw [filter_eq_nil_of_forall _ _ (fun a ha => hno a ha o ho)]
      simp [hy]
    have h3 : overlays.filterMap (fun a => cardinalityErr (heap a)
        ((runState deps heap objs defaultNamespace overlays).matched a) (deps.Keys objs)) = [] := by
      rw [List.filterMap_eq_nil_iff]
      intro a ha
      simp [runState, objectLoop_noMatch_matched deps heap defaultNamespace overlays objs hno,
        cardinalityErr, hopt a ha]
    rw [h1, h2, h3]
    rfl
  simp only [YAMLManifestPatch, hparse, hret, herr]
  rfl

/-- C3, witnessed on the ConfigMap scenario with the optional overlay for an absent Service. -/
theorem optional_unmatched_unmodified_witness :
    demoDeps.ParseK8sObjectsFromYAMLManifest cmYAML = .ok [cmObject] ∧
    (∀ a ∈ [3], (demoHeap a).Optional = true) ∧
    YAMLManifestPatch demoDeps demoHeap cmYAML "ns" [3] =
      (String.join ([cmObject].map (fun o =>
        (match o.YAML with
          | .ok y => y
          | .error _ => "") ++ demoDeps.YAMLSeparator)), none) :=
  ⟨rfl, by decide,
    optional_unmatched_unmodified demoDeps demoHeap cmYAML "ns" [3] [cmObject] rfl
      (fun o ho => by simp at ho; subst ho; exact ⟨cmYAML, rfl⟩) (by decide)
      (by decide) (by decide)⟩

/-- C4: when the manifest parses and patch `j` of overlay `i` has both a value and a verbatim
text, the run returns an error whose message contains the validation message for overlay `i`
patch `j`, whatever the overlay matches; and the messages `validateOverlay` aggregates are those
of the patches that set both, so a patch that sets at most one of the two adds none. -/
theorem value_and_verbatim_rejected (deps : Deps) (heap : Addr → K8sObjectOverlay)
    (baseYAML defaultNamespace : String) (overlays : List Addr) (objs : List K8sObject)
    (i j : Nat) (a : Addr) (p : K8sObjectOverlayPatch)
    (hparse : deps.ParseK8sObjectsFromYAMLManifest baseYAML = .ok objs)
    (hi : overlays[i]? = some a) (hj : (heap a).Patches[j]? = some p)
    (hv : p.Value ≠ "") (hb : p.Verbatim ≠ "") :
    (∃ msg, (YAMLManifestPatch deps heap baseYAML defaultNamespace overlays).2 = some msg ∧
      Contains msg (validationMsg i j)) ∧
    (∀ (k : Nat) (o : K8sObjectOverlay), validateOverlay deps k o =
      ToError deps.errSeparator
        ((o.Patches.enum.filter (fun q => decide (q.2.Value ≠ "" ∧ q.2.Verbatim ≠ ""))).map
          (fun q => validationMsg k q.1))) := by
  constructor
  · have hjm : validationMsg i j ∈
        (((heap a).Patches.enumFrom 0).filter
          (fun q => decide (q.2.Value ≠ "" ∧ q.2.Verbatim ≠ ""))).map
          (fun q => validationMsg i q.1) := by
      apply List.mem_map.2
      refine ⟨(j, p), ?_, rfl⟩
      apply List.mem_filter.2
      refine ⟨?_, by simp [hv, hb]⟩
      exact List.mk_mem_enum_iff_getElem?.2 hj
    obtain ⟨m, hm, hmc⟩ := @ToError_contains deps.errSeparator _ _ _ hjm (contains_refl _)
    have hval : validateOverlay deps i (heap a) = some m := by
      simp only [validateOverlay, validateOverlayLoop_eq, List.nil_append]
      exact hm
    have hmem : m ∈ runErrors deps heap objs defaultNamespace overlays := by
      rw [runErrors_eq]
      apply List.mem_append_left
      apply List.mem_append_left
      apply List.mem_filterMap.2
      exact ⟨(i, a), List.mk_mem_enum_iff_getElem?.2 hi, hval⟩
    simp only [YAMLManifestPatch, hparse]
    exact ToError_contains hmem hmc
  · intro k o
    simp only [validateOverlay, validateOverlayLoop_eq, List.nil_append, List.enum]

/-- C4, witnessed on `TestYAMLManifestPatchValidation`: an empty manifest and one overlay whose
only patch has value `a` and verbatim `b`. -/
theorem value_and_verbatim_rejected_witness :
    demoDeps.ParseK8sObjectsFromYAMLManifest "" = .ok [] ∧
    (∃ msg, (YAMLManifestPatch demoDeps invalidHeap "" "" [0]).2 = some msg ∧
      Contains msg "value and verbatim cannot be used together in overlay 0 patch 0") ∧
    (∀ (k : Nat) (o : K8sObjectOverlay), validateOverlay demoDeps k o =
      ToError demoDeps.errSeparator
        ((o.Patches.enum.filter (fun q => decide (q.2.Value ≠ "" ∧ q.2.Verbatim ≠ ""))).map
          (fun q => validationMsg k q.1))) :=
  ⟨rfl, value_and_verbatim_rejected demoDeps invalidHeap "" "" [0] [] 0 0 0 ⟨"", "a", "b"⟩
    rfl rfl rfl (by decide) (by decide)⟩

/-- C10: on the ConfigMap scenario the overlay at address 0 sets `data.b` and the overlay at
address 1 sets `data.c`, and both match the object. Alone, the first overlay yields a document
with `b: y`; when both are listed, the emitted document has `c: z` and no `b: y`: the second
call of `applyPatches` starts again from the object, and its output replaces the first. -/
theorem later_overlay_discards_earlier :
    overlayMatches (demoHeap 0) cmObject "ns" = true ∧
    overlayMatches (demoHeap 1) cmObject "ns" = true ∧
    YAMLManifestPatch demoDeps demoHeap cmYAML "ns" [0] =
      ("data:\n  a: x\n  b: y\nkind: ConfigMap\nmetadata:\n  name: cm\n  namespace: ns\n\n---\n",
        none) ∧
    YAMLManifestPatch demoDeps demoHeap cmYAML "ns" [0, 1] =
      ("data:\n  a: x\n  c: z\nkind: ConfigMap\nmetadata:\n  name: cm\n  namespace: ns\n\n---\n",
        none) := by
  refine ⟨by decide, by decide, by decide, by decide⟩

theorem childAt_getChild {node : Value} {seg : Seg} {l : Locator} {child : Value}
    (h : childAt node seg = .ok (l, child)) : getChild node l = .ok child := by
  unfold childAt at h
  split at h
  · rename_i fields name
    split at h
    · rename_i c hc
      cases h
      simp [getChild, hc]
    · cases h
  · rename_i items f v
    split at h
    · rename_i i hr
      split at h
      · rename_i c hc
        cases h
        rw [List.get?_eq_getElem?] at hc
        simp [getChild, hc]
      · cases h
    · cases h
    · cases h
  · rename_i items pat
    split at h
    · rename_i i hr
      split at h
      · rename_i c hc
        cases h
        rw [List.get?_eq_getElem?] at hc
        simp [getChild, hc]
      · cases h
    · cases h
    · cases h
  · cases h
  · cases h

theorem descend_getAt :
    ∀ (pre : List Seg) (root : Value) (locs : List Locator) (sub : Value),
      descend root pre = .ok (locs, sub) → getAt root locs = .ok sub := by
  intro pre
  induction pre with
  | nil =>
    intro root locs sub h
    simp only [descend] at h
    cases h
    rfl
  | cons s rest ih =>
    intro root locs sub h
    simp only [descend] at h
    split at h
    · cases h
    · rename_i l child hc
      split at h
      · cases h
      · rename_i trail sub' hd
        cases h
        simp only [getAt, childAt_getChild hc]
        exact ih child trail sub hd

theorem navigate_append :
    ∀ (pre : List Seg) (root : Value) (locs : List Locator) (sub : Value) (s : Seg)
      (rest : List Seg), descend root pre = .ok (locs, sub) →
      navigate root (pre ++ s :: rest) =
        match navigate sub (s :: rest) with
        | .ok (trail, last) => .ok (locs ++ trail, last)
        | .error e => .error e := by
  intro pre
  induction pre with
  | nil =>
    intro root locs sub s rest h
    simp only [descend] at h
    cases h
    simp only [List.nil_append]
    cases navigate root (s :: rest) with
    | error e => rfl
    | ok r => rfl
  | cons p pre' ih =>
    intro root locs sub s rest h
    simp only [descend] at h
    split at h
    · cases h
    · rename_i l child hc
      split at h
      · cases h
      · rename_i trail sub' hd
        cases h
        have hnav : navigate root (p :: pre' ++ s :: rest) =
            match navigate child (pre' ++ s :: rest) with
            | .ok (trail, last) => .ok (l :: trail, last)
            | .error e => .error e := by
          cases hp : pre' ++ s :: rest with
          | nil => simp at hp
          | cons n rest' =>
            simp only [List.cons_append, hp, navigate, hc]
        rw [hnav, ih child trail sub s rest hd]
        cases navigate sub (s :: rest) with
        | error e => rfl
        | ok r => rfl

theorem rebuild_append (f : Value → Except String Value) :
    ∀ (t1 t2 : List Locator) (root : Value),
      rebuild f root (t1 ++ t2) = rebuild (fun c => rebuild f c t2) root t1 := by
  intro t1
  induction t1 with
  | nil => intro t2 root; rfl
  | cons l t ih =>
    intro t2 root
    simp only [List.cons_append, rebuild]
    cases getChild root l with
    | error e => rfl
    | ok child =>
      have h := ih t2 child
      simp only [List.append_eq] at h ⊢
      rw [h]

theorem setChild_getChild {node : Value} {l : Locator} {child : Value} (x : Value)
    (h : getChild node l = .ok child) :
    ∃ node', setChild node l x = .ok node' ∧ getChild node' l = .ok x := by
  unfold getChild at h
  split at h
  · rename_i fields key
    exact ⟨.map (fieldSet fields key x), rfl, by simp [getChild, fieldGet_fieldSet_same]⟩
  · rename_i items i
    split at h
    · rename_i c hc
      have hi : i < items.length := by
        have := List.get?_eq_some.1 hc
        exact this.1
      refine ⟨.seq (items.set i x), by simp [setChild, hi], ?_⟩
      simp [getChild, hi]
    · cases h
  · cases h

/-- Writing into the container at the end of a trail: the write succeeds when the container is
reached and its mutation succeeds, and the mutated container is then found at the same trail. -/
theorem rebuild_getAt (g : Value → Except String Value) :
    ∀ (trail : List Locator) (root c c' : Value), getAt root trail = .ok c → g c = .ok c' →
      ∃ root', rebuild g root trail = .ok root' ∧ getAt root' trail = .ok c' := by
  intro trail
  induction trail with
  | nil =>
    intro root c c' h hg
    simp only [getAt] at h
    cases h
    exact ⟨c', hg, rfl⟩
  | cons l t ih =>
    intro root c c' h hg
    simp only [getAt] at h
    split at h
    · cases h
    · rename_i child hc
      obtain ⟨child', hr, hg'⟩ := ih child c c' h hg
      obtain ⟨root', hs, hgc⟩ := setChild_getChild child' hc
      refine ⟨root', ?_, ?_⟩
      · simp only [rebuild, hc, hr, hs]
      · simp only [getAt, hgc, hg']

/-- A failing mutation of the container at the end of a trail makes the write fail. -/
theorem rebuild_error (g : Value → Except String Value) :
    ∀ (trail : List Locator) (root c : Value) (e : String), getAt root trail = .ok c →
      g c = .error e → rebuild g root trail = .error e := by
  intro trail
  induction trail with
  | nil =>
    intro root c e h hg
    simp only [getAt] at h
    cases h
    exact hg
  | cons l t ih =>
    intro root c e h hg
    simp only [getAt] at h
    split at h
    · cases h
    · rename_i child hc
      simp only [rebuild, hc, ih child c e h hg]

theorem isSpace_ne {c : Char} (h : isSpace c = true) :
    c ≠ '\\' ∧ c ≠ '.' ∧ c ≠ '[' ∧ c ≠ ']' := by
  refine ⟨?_, ?_, ?_, ?_⟩ <;> (rintro rfl; revert h; decide)

theorem splitPath_spaces : ∀ (cs : List Char), (∀ c ∈ cs, isSpace c = true) →
    ∀ (b : Bool) (cur : List Char), splitPath cs b cur =
      if cs.reverse ++ cur = [] then [] else [String.mk (cs.reverse ++ cur).reverse] := by
  intro cs
  induction cs with
  | nil => intro _ b cur; simp [splitPath]
  | cons c cs ih =>
    intro h b cur
    obtain ⟨h1, h2, h3, h4⟩ := isSpace_ne (h c (List.mem_cons_self _ _))
    have ih' := ih (fun d hd => h d (List.mem_cons_of_mem _ hd))
    rw [splitPath]
    · rw [ih']
      simp
    all_goals simp_all

theorem dropWhile_eq_nil_of_all {α : Type} (p : α → Bool) (l : List α)
    (h : ∀ x ∈ l.dropWhile p, p x = true) : l.dropWhile p = [] := by
  induction l with
  | nil => rfl
  | cons a rest ih =>
    by_cases ha : p a = true
    · rw [List.dropWhile_cons_of_pos ha] at h ⊢
      exact ih h
    · rw [List.dropWhile_cons_of_neg ha] at h
      exact absurd (h a (List.mem_cons_self _ _)) ha

theorem all_space_of_trim_nil (cs : List Char) (h : trimSpaceChars cs = []) :
    ∀ c ∈ cs, isSpace c = true := by
  unfold trimSpaceChars at h
  rw [List.reverse_eq_nil_iff, List.dropWhile_eq_nil_iff] at h
  have h1 : cs.dropWhile isSpace = [] :=
    dropWhile_eq_nil_of_all isSpace cs (fun x hx => h x (List.mem_reverse.2 hx))
  exact List.dropWhile_eq_nil_iff.1 h1

/-- A blank path has no segment, or is one key. -/
theorem blank_path_segs (path : String) (h : TrimSpace path = "") :
    parseSegs (PathFromString path) = .ok [] ∨
      ∃ k, parseSegs (PathFromString path) = .ok [Seg.key k] := by
  have hall : ∀ c ∈ path.data, isSpace c = true := by
    apply all_space_of_trim_nil
    have := congrArg String.data h
    simpa [TrimSpace] using this
  unfold PathFromString
  rw [splitPath_spaces path.data hall]
  cases hd : path.data with
  | nil => left; simp [parseSegs]
  | cons c cs =>
    right
    refine ⟨String.mk (c :: cs), ?_⟩
    have hne : (c :: cs).reverse ++ [] ≠ [] := by simp
    rw [if_neg hne]
    simp only [List.append_nil, List.reverse_reverse, parseSegs]
    have hc := isSpace_ne (hall c (by rw [hd]; exact List.mem_cons_self _ _))
    have hb : hasBracket (c :: cs) = false := by
      unfold hasBracket
      rw [Bool.eq_false_iff]
      intro hany
      obtain ⟨d, hdm, hdb⟩ := List.any_eq_true.1 hany
      have hsp := isSpace_ne (hall d (by rw [hd]; exact hdm))
      simp [hsp.2.2.1, hsp.2.2.2] at hdb
    have hseg : parseSeg (String.mk (c :: cs)) = .ok (Seg.key (String.mk (c :: cs))) := by
      unfold parseSeg
      split
      · rename_i rest heq
        simp at heq
        exact absurd heq.1 hc.2.2.1
      · rename_i cs' hx
        simp [hb]
    rw [hseg]

/-- A path that parses into two or more segments, or into a single selector, is not blank. -/
theorem nonblank_of_segs {path : String} {pre : List Seg} {s : Seg} {rest : List Seg}
    (hsegs : parseSegs (PathFromString path) = .ok (pre ++ s :: rest))
    (hs : (∀ k, s ≠ Seg.key k) ∨ rest ≠ [] ∨ pre ≠ []) : TrimSpace path ≠ "" := by
  intro hblank
  rcases blank_path_segs path hblank with h | ⟨k, h⟩
  · rw [h] at hsegs
    cases pre <;> simp at hsegs
  · rw [h] at hsegs
    cases pre with
    | nil =>
      simp at hsegs
      rcases hs with hs | hs | hs
      · exact hs k hsegs.1.symm
      · exact hs hsegs.2
      · exact hs rfl
    | cons p pre' =>
      simp at hsegs

/-- One iteration of `applyPatches` for a patch whose value decodes and whose path parses into
`segs`: navigation, then the write, an error of either being collected. -/
theorem applyPatch_eq (deps : Deps) (bo : Value) (errs : Errors) (p : K8sObjectOverlayPatch)
    (x : Value) (tu : Bool) (segs : List Seg) (hpath : TrimSpace p.Path ≠ "")
    (hval : patchValue deps p = .ok (x, tu))
    (hsegs : parseSegs (PathFromString p.Path) = .ok segs) :
    applyPatch deps bo errs p =
      match navigate bo segs with
      | .error e => (bo, AppendErr errs (some e))
      | .ok (trail, last) =>
        match rebuild (fun c => writeChild deps c last x false tu) bo trail with
        | .error e => (bo, AppendErr errs (some e))
        | .ok bo' => (bo', errs) := by
  simp only [applyPatch, hval, if_neg hpath, GetPathContext, hsegs]
  cases hn : navigate bo segs with
  | error e => rfl
  | ok r =>
    obtain ⟨trail, last⟩ := r
    simp only [WritePathContext]

/-- A patch whose path leads through `pre` to the node `sub` and on through `s :: rest` to a
location in `sub`: when the write succeeds in `sub`, the patch succeeds and the node found at
the end of `pre` is the mutated `sub`. -/
theorem applyPatch_under (deps : Deps) (root : Value) (errs : Errors)
    (p : K8sObjectOverlayPatch) (x : Value) (tu : Bool) (pre : List Seg) (s : Seg)
    (rest : List Seg) (locs trail : List Locator) (last : Locator) (sub sub' : Value)
    (hpath : TrimSpace p.Path ≠ "") (hval : patchValue deps p = .ok (x, tu))
    (hsegs : parseSegs (PathFromString p.Path) = .ok (pre ++ s :: rest))
    (hpre : descend root pre = .ok (locs, sub))
    (hnav : navigate sub (s :: rest) = .ok (trail, last))
    (hw : rebuild (fun c => writeChild deps c last x false tu) sub trail = .ok sub') :
    ∃ root', applyPatch deps root errs p = (root', errs) ∧ getAt root' locs = .ok sub' ∧
      rebuild (fun c => rebuild (fun c => writeChild deps c last x false tu) c trail) root locs =
        .ok root' := by
  obtain ⟨root', hr, hg⟩ := rebuild_getAt
    (fun c => rebuild (fun c => writeChild deps c last x false tu) c trail) locs root sub sub'
    (descend_getAt pre root locs sub hpre) hw
  refine ⟨root', ?_, hg, hr⟩
  rw [applyPatch_eq deps root errs p x tu _ hpath hval hsegs,
    navigate_append pre root locs sub s rest hpre, hnav]
  simp only [rebuild_append, hr]

/-- A patch whose path leads through `pre` to `sub` and whose navigation or write fails in
`sub`: the tree is left as it is. -/
theorem applyPatch_under_error (deps : Deps) (root : Value) (errs : Errors)
    (p : K8sObjectOverlayPatch) (x : Value) (tu : Bool) (pre : List Seg) (s : Seg)
    (rest : List Seg) (locs : List Locator) (sub : Value)
    (hpath : TrimSpace p.Path ≠ "") (hval : patchValue deps p = .ok (x, tu))
    (hsegs : parseSegs (PathFromString p.Path) = .ok (pre ++ s :: rest))
    (hpre : descend root pre = .ok (locs, sub))
    (hfail : (∃ e, navigate sub (s :: rest) = .error e) ∨
      ∃ trail last e, navigate sub (s :: rest) = .ok (trail, last) ∧
        rebuild (fun c => writeChild deps c last x false tu) sub trail = .error e) :
    (applyPatch deps root errs p).1 = root := by
  rw [applyPatch_eq deps root errs p x tu _ hpath hval hsegs,
    navigate_append pre root locs sub s rest hpre]
  rcases hfail with ⟨e, he⟩ | ⟨trail, last, e, hn, he⟩
  · rw [he]
  · rw [hn]
    simp only [rebuild_append]
    rw [rebuild_error _ locs root sub e (descend_getAt pre root locs sub hpre) he]

theorem applyPatch_value_error (deps : Deps) (bo : Value) (errs : Errors)
    (p : K8sObjectOverlayPatch) (e : String) (hval : patchValue deps p = .error e) :
    applyPatch deps bo errs p = (bo, AppendErr errs (some e)) := by
  simp only [applyPatch, hval]

theorem writeChild_present (deps : Deps) (c : Value) (l : Locator) (x : Value) (tu : Bool)
    (hx : x ≠ Value.null) :
    writeChild deps c l x false tu = setChild c l (storedValue deps x tu) := by
  cases x <;> first | exact absurd rfl hx | rfl

theorem writeChild_absent (deps : Deps) (c : Value) (l : Locator) (merge tu : Bool) :
    writeChild deps c l Value.null merge tu = delChild c l := rfl

/-- A path that navigates splits into the segments passed on the way to the owning container
and the last segment, resolved in that container. -/
theorem navigate_split :
    ∀ (segs : List Seg) (root : Value) (trail : List Locator) (last : Locator),
      navigate root segs = .ok (trail, last) →
      ∃ pre s c, segs = pre ++ [s] ∧ descend root pre = .ok (trail, c) ∧
        resolveLast c s = .ok last := by
  intro segs
  induction segs with
  | nil => intro root trail last h; simp [navigate] at h
  | cons s rest ih =>
    intro root trail last h
    cases rest with
    | nil =>
      simp only [navigate] at h
      split at h
      · rename_i l hl
        cases h
        exact ⟨[], s, root, rfl, rfl, hl⟩
      · cases h
    | cons n rest' =>
      simp only [navigate] at h
      split at h
      · cases h
      · rename_i l child hc
        split at h
        · rename_i t la hn
          cases h
          obtain ⟨pre, s', c, hsplit, hd, hr⟩ := ih child t last hn
          refine ⟨s :: pre, s', c, by rw [hsplit]; rfl, ?_, hr⟩
          simp only [descend, hc, hd]
        · cases h

theorem resolve_index_lt {items : List Value} {s : Seg} {i : Nat}
    (h : resolve items s = .ok (Locator.index i)) : i < items.length := by
  cases s with
  | key name => simp [resolve] at h
  | field f v =>
    simp only [resolve] at h
    split at h
    · split at h
      · rename_i j hj
        cases h
        exact firstIdx_lt _ hj
      · cases h
    · cases h
  | pattern pat =>
    have hscan : scanPattern pat items = .ok (Locator.index i) → i < items.length := by
      intro hs
      simp only [scanPattern] at hs
      split at hs
      · rename_i j hj
        cases hs
        exact firstIdx_lt _ hj
      · cases hs
    simp only [resolve] at h
    split at h
    · split at h
      · cases h
      · exact hscan h
    · exact hscan h

/-- Writing a value at a resolved location succeeds, and the value is then the child at the
locator: the field, the element at the index, or the new last element. -/
theorem setChild_resolved {c : Value} {s : Seg} {last : Locator} (x : Value)
    (h : resolveLast c s = .ok last) :
    ∃ c', setChild c last x = .ok c' ∧
      match last with
      | .append => ∃ items, c = .seq items ∧ c' = .seq (items ++ [x])
      | l => getChild c' l = .ok x := by
  unfold resolveLast at h
  split at h
  · rename_i fields name
    cases h
    exact ⟨.map (fieldSet fields name x), rfl, by simp [getChild, fieldGet_fieldSet_same]⟩
  · rename_i items f v
    cases last with
    | field k => simp only [resolve] at h; split at h <;> [split at h <;> cases h; cases h]
    | append => simp only [resolve] at h; split at h <;> [split at h <;> cases h; cases h]
    | index i =>
      have hi := resolve_index_lt h
      exact ⟨.seq (items.set i x), by simp [setChild, hi], by simp [getChild, hi]⟩
  · rename_i items pat
    cases last with
    | field k =>
      simp only [resolve, scanPattern] at h
      split at h <;> [split at h <;> [cases h; split at h <;> cases h]; split at h <;> cases h]
    | append => exact ⟨.seq (items ++ [x]), rfl, items, rfl, rfl⟩
    | index i =>
      have hi := resolve_index_lt h
      exact ⟨.seq (items.set i x), by simp [setChild, hi], by simp [getChild, hi]⟩
  · cases h
  · cases h

/-- C5: a patch with a non-empty verbatim text and an empty value yields the text as a string
value with `tryUnmarshal` false; the writer stores the string without reading it as structure,
whatever the decoders would make of it; and when the path of the patch resolves, the patch
succeeds and the child at the resolved location is exactly that string. -/
theorem verbatim_written_literally (deps : Deps) (bo : Value) (errs : Errors)
    (p : K8sObjectOverlayPatch) (inc : PathContext)
    (hvb : p.Verbatim ≠ "") (hv : p.Value = "") (hpath : TrimSpace p.Path ≠ "")
    (hnav : GetPathContext bo (PathFromString p.Path) true = .ok inc) :
    patchValue deps p = .ok (Value.str p.Verbatim, false) ∧
    storedValue deps (Value.str p.Verbatim) false = Value.str p.Verbatim ∧
    ∃ bo' c', applyPatch deps bo errs p = (bo', errs) ∧
      WritePathContext deps inc (Value.str p.Verbatim) false false = .ok bo' ∧
      getAt bo' inc.trail = .ok c' ∧
      match inc.last with
      | .append => ∃ items, getAt bo inc.trail = .ok (.seq items) ∧
          c' = .seq (items ++ [Value.str p.Verbatim])
      | l => getChild c' l = .ok (Value.str p.Verbatim) := by
  have hpv : patchValue deps p = .ok (Value.str p.Verbatim, false) := by
    simp [patchValue, hvb, hv]
  refine ⟨hpv, rfl, ?_⟩
  unfold GetPathContext at hnav
  split at hnav
  · cases hnav
  · rename_i segs hsegs
    split at hnav
    · rename_i trail last hn
      cases hnav
      obtain ⟨pre, s, c, hsplit, hd, hr⟩ := navigate_split segs bo trail last hn
      obtain ⟨c', hset, hread⟩ := setChild_resolved (Value.str p.Verbatim) hr
      have hw : writeChild deps c last (Value.str p.Verbatim) false false = .ok c' := by
        rw [writeChild_present deps c last _ false (by simp)]
        exact hset
      obtain ⟨bo', hrb, hg⟩ := rebuild_getAt
        (fun c => writeChild deps c last (Value.str p.Verbatim) false false) trail bo c c'
        (descend_getAt pre bo trail c hd) hw
      refine ⟨bo', c', ?_, hrb, hg, ?_⟩
      · rw [applyPatch_eq deps bo errs p _ false segs hpath hpv hsegs, hn]
        simp only [hrb]
      · cases last with
        | field k => exact hread
        | index i => exact hread
        | append =>
          obtain ⟨items, hc, hc'⟩ := hread
          exact ⟨items, by rw [descend_getAt pre bo trail c hd, hc], hc'⟩
    · cases hnav

/-- C5, witnessed on `TestPatchYAMLConfigMap`: the verbatim text `foo: true`, which the
stand-in decoders read as a mapping, written at `data.yaml_looking_file`. -/
theorem verbatim_written_literally_witness :
    demoDeps.tryUnmarshalString "foo: true\n" = some (.map [("foo", .bool true)]) ∧
    GetPathContext cmTree (PathFromString "data.yaml_looking_file") true =
      .ok ⟨cmTree, [Locator.field "data"], Locator.field "yaml_looking_file"⟩ ∧
    (patchValue demoDeps ⟨"data.yaml_looking_file", "", "foo: true\n"⟩ =
        .ok (Value.str "foo: true\n", false) ∧
      storedValue demoDeps (Value.str "foo: true\n") false = Value.str "foo: true\n" ∧
      ∃ bo' c', applyPatch demoDeps cmTree [] ⟨"data.yaml_looking_file", "", "foo: true\n"⟩ =
          (bo', []) ∧
        WritePathContext demoDeps
          ⟨cmTree, [Locator.field "data"], Locator.field "yaml_looking_file"⟩
          (Value.str "foo: true\n") false false = .ok bo' ∧
        getAt bo' [Locator.field "data"] = .ok c' ∧
        getChild c' (Locator.field "yaml_looking_file") = .ok (Value.str "foo: true\n")) :=
  ⟨rfl, rfl,
    verbatim_written_literally demoDeps cmTree [] ⟨"data.yaml_looking_file", "", "foo: true\n"⟩
      ⟨cmTree, [Locator.field "data"], Locator.field "yaml_looking_file"⟩
      (by decide) rfl (by decide) rfl⟩

theorem matchesField_map {f v : String} {el : Value} (h : matchesField f v el = true) :
    ∃ fields, el = .map fields := by
  cases el <;> first | exact ⟨_, rfl⟩ | simp [matchesField] at h

theorem all_isMapping {items : List Value} (h : ∀ el ∈ items, isMapping el = true) :
    items.all isMapping = true := by
  rw [List.all_eq_true]
  exact h

/-- A field selector applied to a sequence of mappings resolves to the first element whose field
renders as the value. -/
theorem resolve_field_first {items : List Value} {f v : String} {i : Nat} {el : Value}
    (hmaps : ∀ e ∈ items, isMapping e = true) (hi : items[i]? = some el)
    (hm : matchesField f v el = true)
    (hmin : ∀ j, j < i → ∀ b, items[j]? = some b → matchesField f v b = false) :
    resolve items (Seg.field f v) = .ok (Locator.index i) := by
  have hfirst : firstIdx (matchesField f v) items = some i :=
    (firstIdx_eq_some _ items i).2 ⟨⟨el, hi, hm⟩, hmin⟩
  simp only [resolve, all_isMapping hmaps, if_true, hfirst]

theorem childAt_field_first {items : List Value} {f v : String} {i : Nat} {el : Value}
    (hmaps : ∀ e ∈ items, isMapping e = true) (hi : items[i]? = some el)
    (hm : matchesField f v el = true)
    (hmin : ∀ j, j < i → ∀ b, items[j]? = some b → matchesField f v b = false) :
    childAt (.seq items) (Seg.field f v) = .ok (Locator.index i, el) := by
  simp only [childAt, resolve_field_first hmaps hi hm hmin, List.get?_eq_getElem?, hi]

/-- C6: a patch with a present value whose path ends in `[f:v].k`, where the path before leads
to a sequence of mappings and element `i` is the first whose field `f` renders as `v`: the
patch succeeds, the sequence keeps its length and every element other than `i`, and element
`i` is a mapping in which `k` is the stored value and every other field is as before. -/
theorem field_selector_key_sets_first (deps : Deps) (root : Value) (errs : Errors)
    (p : K8sObjectOverlayPatch) (x : Value) (tu : Bool) (pre : List Seg) (f v k : String)
    (locs : List Locator) (items : List Value) (i : Nat) (el : Value)
    (hsegs : parseSegs (PathFromString p.Path) = .ok (pre ++ [Seg.field f v, Seg.key k]))
    (hval : patchValue deps p = .ok (x, tu)) (hx : x ≠ Value.null)
    (hpre : descend root pre = .ok (locs, .seq items))
    (hmaps : ∀ e ∈ items, isMapping e = true)
    (hi : items[i]? = some el) (hm : matchesField f v el = true)
    (hmin : ∀ j, j < i → ∀ b, items[j]? = some b → matchesField f v b = false) :
    ∃ fields fields' items' root', el = .map fields ∧
      applyPatch deps root errs p = (root', errs) ∧
      getAt root' locs = .ok (.seq items') ∧
      items'.length = items.length ∧
      items'[i]? = some (.map fields') ∧
      (∀ j, j ≠ i → items'[j]? = items[j]?) ∧
      fieldGet fields' k = some (storedValue deps x tu) ∧
      (∀ k', k' ≠ k → fieldGet fields' k' = fieldGet fields k') := by
  obtain ⟨fields, rfl⟩ := matchesField_map hm
  have hlt : i < items.length := (List.getElem?_eq_some_iff.1 hi).1
  have hpath : TrimSpace p.Path ≠ "" :=
    nonblank_of_segs hsegs (Or.inr (Or.inl (by simp)))
  have hnav : navigate (.seq items) [Seg.field f v, Seg.key k] =
      .ok ([Locator.index i], Locator.field k) := by
    simp only [navigate, childAt_field_first hmaps hi hm hmin, resolveLast]
  have hw : rebuild (fun c => writeChild deps c (Locator.field k) x false tu) (.seq items)
      [Locator.index i] =
      .ok (.seq (items.set i (.map (fieldSet fields k (storedValue deps x tu))))) := by
    simp only [rebuild, getChild, List.get?_eq_getElem?, hi, writeChild_present deps _ _ x tu hx,
      setChild, if_pos hlt]
  obtain ⟨root', happ, hget, _⟩ := applyPatch_under deps root errs p x tu pre (Seg.field f v)
    [Seg.key k] locs [Locator.index i] (Locator.field k) (.seq items) _ hpath hval hsegs hpre
    hnav hw
  refine ⟨fields, fieldSet fields k (storedValue deps x tu), _, root', rfl, happ, hget,
    by simp, by simp [hlt], ?_, fieldGet_fieldSet_same _ _ _,
    fun k' hk => fieldGet_fieldSet_other _ _ hk⟩
  intro j hj
  rw [List.getElem?_set_ne (Ne.symm hj)]

/-- C6, witnessed on a sequence in which two elements are named `n1`: the first of them gets the
new value. -/
theorem field_selector_key_sets_first_witness :
    parseSegs (PathFromString "b.[name:n1].value") =
      .ok ([Seg.key "b"] ++ [Seg.field "name" "n1", Seg.key "value"]) ∧
    patchValue demoDeps ⟨"b.[name:n1].value", "v2", ""⟩ = .ok (Value.str "v2", true) ∧
    descend dupTree [Seg.key "b"] = .ok ([Locator.field "b"],
      .seq [.map [("name", .str "n0"), ("value", .str "v0")],
        .map [("name", .str "n1"), ("value", .str "v1")],
        .map [("name", .str "n1"), ("value", .str "v9")]]) ∧
    ∃ fields fields' items' root',
      Value.map [("name", .str "n1"), ("value", .str "v1")] = .map fields ∧
      applyPatch demoDeps dupTree [] ⟨"b.[name:n1].value", "v2", ""⟩ = (root', []) ∧
      getAt root' [Locator.field "b"] = .ok (.seq items') ∧
      items'.length = 3 ∧
      items'[1]? = some (.map fields') ∧
      (∀ j, j ≠ 1 → items'[j]? =
        [Value.map [("name", .str "n0"), ("value", .str "v0")],
          .map [("name", .str "n1"), ("value", .str "v1")],
          .map [("name", .str "n1"), ("value", .str "v9")]][j]?) ∧
      fieldGet fields' "value" = some (storedValue demoDeps (Value.str "v2") true) ∧
      (∀ k', k' ≠ "value" → fieldGet fields' k' = fieldGet fields k') :=
  ⟨by rfl, by rfl, by rfl,
    field_selector_key_sets_first demoDeps dupTree [] ⟨"b.[name:n1].value", "v2", ""⟩
      (Value.str "v2") true [Seg.key "b"] "name" "n1" "value" [Locator.field "b"]
      [.map [("name", .str "n0"), ("value", .str "v0")],
        .map [("name", .str "n1"), ("value", .str "v1")],
        .map [("name", .str "n1"), ("value", .str "v9")]] 1
      (.map [("name", .str "n1"), ("value", .str "v1")])
      (by rfl) (by rfl) (by simp) (by rfl) (by simp [isMapping]) (by rfl) (by rfl)
      (by
        intro j hj b hb
        have hj0 : j = 0 := by omega
        subst hj0
        simp at hb
        subst hb
        rfl)⟩

/-- The outcome of the scan for a pattern: the first element whose rendering contains it, or a
lookup error when no element does. -/
theorem scanPattern_cases (pat : String) (items : List Value) :
    (∃ i el, scanPattern pat items = .ok (Locator.index i) ∧ items[i]? = some el ∧
      matchesPattern pat el = true ∧
      ∀ j, j < i → ∀ b, items[j]? = some b → matchesPattern pat b = false) ∨
    (∃ e, scanPattern pat items = .error e ∧ ∀ el ∈ items, matchesPattern pat el = false) := by
  cases h : firstIdx (matchesPattern pat) items with
  | none =>
    right
    exact ⟨"lookup error: no element matches " ++ pat, by simp only [scanPattern, h],
      (firstIdx_eq_none _ items).1 h⟩
  | some i =>
    left
    obtain ⟨⟨el, hel, hm⟩, hmin⟩ := (firstIdx_eq_some _ items i).1 h
    exact ⟨i, el, by simp only [scanPattern, h], hel, hm, hmin⟩

/-- C8: for a patch whose last segment is a pattern selector and whose path before leads to a
sequence of length `n`: when the pattern is the integer `n` and the value is present, the patch
succeeds and the sequence becomes the old one followed by the stored value; when the pattern is
an integer smaller than `n`, the selector is never the append location: it resolves to the first
element whose rendering contains the pattern or is a lookup error, and the sequence found after
the patch is not longer than before. -/
theorem pattern_length_appends (deps : Deps) (root : Value) (errs : Errors)
    (p : K8sObjectOverlayPatch) (pre : List Seg) (pat : String)
    (locs : List Locator) (items : List Value)
    (hsegs : parseSegs (PathFromString p.Path) = .ok (pre ++ [Seg.pattern pat]))
    (hpre : descend root pre = .ok (locs, .seq items)) :
    (parseNat pat = some items.length → ∀ x tu, patchValue deps p = .ok (x, tu) →
      x ≠ Value.null →
      ∃ root', applyPatch deps root errs p = (root', errs) ∧
        getAt root' locs = .ok (.seq (items ++ [storedValue deps x tu]))) ∧
    (∀ m, parseNat pat = some m → m < items.length →
      resolve items (Seg.pattern pat) ≠ .ok Locator.append ∧
      ((∃ i el, resolve items (Seg.pattern pat) = .ok (Locator.index i) ∧
          items[i]? = some el ∧ matchesPattern pat el = true ∧
          ∀ j, j < i → ∀ b, items[j]? = some b → matchesPattern pat b = false) ∨
        (∃ e, resolve items (Seg.pattern pat) = .error e ∧
          ∀ el ∈ items, matchesPattern pat el = false)) ∧
      ∃ items', getAt (applyPatch deps root errs p).1 locs = .ok (.seq items') ∧
        items'.length ≤ items.length) := by
  have hpath : TrimSpace p.Path ≠ "" :=
    nonblank_of_segs hsegs (Or.inl (by intro k; simp))
  have hroot := descend_getAt pre root locs _ hpre
  constructor
  · intro hn x tu hval hx
    have hnav : navigate (.seq items) [Seg.pattern pat] = .ok ([], Locator.append) := by
      simp only [navigate, resolveLast, resolve, hn, Nat.le_refl, if_true]
    have hw : rebuild (fun c => writeChild deps c Locator.append x false tu) (.seq items) [] =
        .ok (.seq (items ++ [storedValue deps x tu])) := by
      simp only [rebuild, writeChild_present deps _ _ x tu hx, setChild]
    obtain ⟨root', happ, hget, _⟩ := applyPatch_under deps root errs p x tu pre
      (Seg.pattern pat) [] locs [] Locator.append (.seq items) _ hpath hval hsegs hpre hnav hw
    exact ⟨root', happ, hget⟩
  · intro m hm hlt
    have hres : resolve items (Seg.pattern pat) = scanPattern pat items := by
      simp only [resolve, hm, Nat.not_le.2 hlt, if_false]
    have hnoapp : scanPattern pat items ≠ .ok Locator.append := by
      intro h
      simp only [scanPattern] at h
      split at h <;> cases h
    refine ⟨by rw [hres]; exact hnoapp, by rw [hres]; exact scanPattern_cases pat items, ?_⟩
    cases hval : patchValue deps p with
    | error e =>
      rw [applyPatch_value_error deps root errs p e hval]
      exact ⟨items, hroot, Nat.le_refl _⟩
    | ok r =>
      obtain ⟨x, tu⟩ := r
      rcases scanPattern_cases pat items with ⟨i, el, hs, hel, _, _⟩ | ⟨e, hs, _⟩
      · have hi : i < items.length := (List.getElem?_eq_some_iff.1 hel).1
        have hnav : navigate (.seq items) [Seg.pattern pat] = .ok ([], Locator.index i) := by
          simp only [navigate, resolveLast, hres, hs]
        by_cases hx : x = Value.null
        · subst hx
          have hw : rebuild (fun c => writeChild deps c (Locator.index i) Value.null false tu)
              (.seq items) [] = .ok (.seq (items.eraseIdx i)) := by
            simp only [rebuild, writeChild_absent, delChild, if_pos hi]
          obtain ⟨root', happ, hget, _⟩ := applyPatch_under deps root errs p Value.null tu pre
            (Seg.pattern pat) [] locs [] (Locator.index i) (.seq items) _ hpath hval hsegs
            hpre hnav hw
          rw [happ]
          exact ⟨_, hget, by rw [List.length_eraseIdx]; split <;> omega⟩
        · have hw : rebuild (fun c => writeChild deps c (Locator.index i) x false tu)
              (.seq items) [] = .ok (.seq (items.set i (storedValue deps x tu))) := by
            simp only [rebuild, writeChild_present deps _ _ x tu hx, setChild, if_pos hi]
          obtain ⟨root', happ, hget, _⟩ := applyPatch_under deps root errs p x tu pre
            (Seg.pattern pat) [] locs [] (Locator.index i) (.seq items) _ hpath hval hsegs
            hpre hnav hw
          rw [happ]
          exact ⟨_, hget, by simp⟩
      · have hnav : navigate (.seq items) [Seg.pattern pat] = .error e := by
          simp only [navigate, resolveLast, hres, hs]
        rw [applyPatch_under_error deps root errs p x tu pre (Seg.pattern pat) [] locs
          (.seq items) hpath hval hsegs hpre (Or.inl ⟨e, hnav⟩)]
        exact ⟨items, hroot, Nat.le_refl _⟩

/-- C8, witnessed on `AppendToListEntry`: the list of `n2` has three entries and the selector
is `[3]`. -/
theorem pattern_length_appends_witness :
    parseSegs (PathFromString "a.b.[name:n2].list.[3]") =
      .ok ([Seg.key "a", Seg.key "b", Seg.field "name" "n2", Seg.key "list"] ++
        [Seg.pattern "3"]) ∧
    descend baseTree [Seg.key "a", Seg.key "b", Seg.field "name" "n2", Seg.key "list"] =
      .ok ([Locator.field "a", Locator.field "b", Locator.index 1, Locator.field "list"],
        .seq [.str "v1", .str "v2", .str "v3_regex"]) ∧
    parseNat "3" = some [Value.str "v1", .str "v2", .str "v3_regex"].length ∧
    (∃ root', applyPatch demoDeps baseTree [] ⟨"a.b.[name:n2].list.[3]", "v4", ""⟩ =
        (root', []) ∧
      getAt root' [Locator.field "a", Locator.field "b", Locator.index 1,
          Locator.field "list"] =
        .ok (.seq ([.str "v1", .str "v2", .str "v3_regex"] ++
          [storedValue demoDeps (Value.str "v4") true]))) :=
  ⟨by rfl, by rfl, by rfl,
    (pattern_length_appends demoDeps baseTree [] ⟨"a.b.[name:n2].list.[3]", "v4", ""⟩
      [Seg.key "a", Seg.key "b", Seg.field "name" "n2", Seg.key "list"] "3"
      [Locator.field "a", Locator.field "b", Locator.index 1, Locator.field "list"]
      [.str "v1", .str "v2", .str "v3_regex"] (by rfl) (by rfl)).1 (by rfl)
      (Value.str "v4") true (by rfl) (by simp)⟩

/-- C9, counterexample: `UpdateInteriorNode` of `patch_test.go`. The element of `ports` matched
by `[containerPort:15014]` has the field `containerPort`, the value `fooPort: 15015` does not
mention it, and after the patch the element is the value alone: `containerPort` is gone. -/
theorem field_selector_mapping_drops_fields :
    patchValue demoDeps
        ⟨"containers.[name:galley].ports.[containerPort:15014]", "fooPort: 15015", ""⟩ =
      .ok (.map [("fooPort", .num 15015)], true) ∧
    applyPatch demoDeps galleyTree []
        ⟨"containers.[name:galley].ports.[containerPort:15014]", "fooPort: 15015", ""⟩ =
      (.map [("containers", .seq [.map [("name", .str "deleteThis"), ("foo", .str "bar")],
        .map [("name", .str "galley"),
          ("ports", .seq [.map [("containerPort", .num 443)], .map [("fooPort", .num 15015)],
            .map [("containerPort", .num 9901)]])]])], []) ∧
    fieldGet [("containerPort", Value.num 15014)] "containerPort" = some (.num 15014) ∧
    fieldGet [("fooPort", Value.num 15015)] "containerPort" = none := by
  refine ⟨by rfl, by rfl, by rfl, by rfl⟩

/-- C9, amended: a patch whose last segment is a field selector, whose path before leads to a
sequence of mappings in which element `i` is the first that matches, and whose stored value is
a mapping: the patch succeeds and replaces element `i` by the value; the other elements of the
sequence are as before. -/
theorem field_selector_mapping_replaces (deps : Deps) (root : Value) (errs : Errors)
    (p : K8sObjectOverlayPatch) (x : Value) (tu : Bool) (pre : List Seg) (f v : String)
    (locs : List Locator) (items : List Value) (i : Nat) (el : Value)
    (new : List (String × Value))
    (hsegs : parseSegs (PathFromString p.Path) = .ok (pre ++ [Seg.field f v]))
    (hval : patchValue deps p = .ok (x, tu)) (hnew : storedValue deps x tu = .map new)
    (hpre : descend root pre = .ok (locs, .seq items))
    (hmaps : ∀ e ∈ items, isMapping e = true)
    (hi : items[i]? = some el) (hm : matchesField f v el = true)
    (hmin : ∀ j, j < i → ∀ b, items[j]? = some b → matchesField f v b = false) :
    ∃ root', applyPatch deps root errs p = (root', errs) ∧
      getAt root' locs = .ok (.seq (items.set i (.map new))) := by
  have hx : x ≠ Value.null := by
    rintro rfl
    cases tu <;> simp [storedValue] at hnew
  have hlt : i < items.length := (List.getElem?_eq_some_iff.1 hi).1
  have hpath : TrimSpace p.Path ≠ "" :=
    nonblank_of_segs hsegs (Or.inl (by intro k; simp))
  have hnav : navigate (.seq items) [Seg.field f v] = .ok ([], Locator.index i) := by
    simp only [navigate, resolveLast, resolve_field_first hmaps hi hm hmin]
  have hw : rebuild (fun c => writeChild deps c (Locator.index i) x false tu) (.seq items) [] =
      .ok (.seq (items.set i (.map new))) := by
    simp only [rebuild, writeChild_present deps _ _ x tu hx, setChild, if_pos hlt, hnew]
  obtain ⟨root', happ, hget, _⟩ := applyPatch_under deps root errs p x tu pre (Seg.field f v)
    [] locs [] (Locator.index i) (.seq items) _ hpath hval hsegs hpre hnav hw
  exact ⟨root', happ, hget⟩

/-- C9 amended, witnessed on `UpdateInteriorNode`. -/
theorem field_selector_mapping_replaces_witness :
    parseSegs (PathFromString "containers.[name:galley].ports.[containerPort:15014]") =
      .ok ([Seg.key "containers", Seg.field "name" "galley", Seg.key "ports"] ++
        [Seg.field "containerPort" "15014"]) ∧
    storedValue demoDeps (.map [("fooPort", .num 15015)]) true =
      .map [("fooPort", .num 15015)] ∧
    ∃ root', applyPatch demoDeps galleyTree []
        ⟨"containers.[name:galley].ports.[containerPort:15014]", "fooPort: 15015", ""⟩ =
        (root', []) ∧
      getAt root' [Locator.field "containers", Locator.index 1, Locator.field "ports"] =
        .ok (.seq ([Value.map [("containerPort", .num 443)],
          .map [("containerPort", .num 15014)], .map [("containerPort", .num 9901)]].set 1
            (.map [("fooPort", .num 15015)]))) :=
  ⟨by rfl, by rfl,
    field_selector_mapping_replaces demoDeps galleyTree []
      ⟨"containers.[name:galley].ports.[containerPort:15014]", "fooPort: 15015", ""⟩
      (.map [("fooPort", .num 15015)]) true
      [Seg.key "containers", Seg.field "name" "galley", Seg.key "ports"] "containerPort" "15014"
      [Locator.field "containers", Locator.index 1, Locator.field "ports"]
      [.map [("containerPort", .num 443)], .map [("containerPort", .num 15014)],
        .map [("containerPort", .num 9901)]] 1 (.map [("containerPort", .num 15014)])
      [("fooPort", .num 15015)] (by rfl) (by rfl) (by rfl) (by rfl) (by simp [isMapping])
      (by rfl) (by rfl)
      (by
        intro j hj b hb
        have hj0 : j = 0 := by omega
        subst hj0
        simp at hb
        subst hb
        rfl)⟩

theorem childAt_key_inv {node : Value} {k : String} {l : Locator} {c : Value}
    (h : childAt node (Seg.key k) = .ok (l, c)) :
    ∃ fields, node = .map fields ∧ l = Locator.field k ∧ fieldGet fields k = some c := by
  cases node with
  | map fields =>
    simp only [childAt] at h
    split at h
    · rename_i child hc
      cases h
      exact ⟨fields, rfl, rfl, hc⟩
    · cases h
  | null => simp [childAt] at h
  | bool b => simp [childAt] at h
  | num n => simp [childAt] at h
  | str t => simp [childAt] at h
  | seq items => simp [childAt] at h

theorem childAt_seq_inv {items : List Value} {s : Seg} {l : Locator} {c : Value}
    (h : (match resolve items s with
      | .ok (Locator.index i) =>
        match items.get? i with
        | some child => Except.ok (Locator.index i, child)
        | none => Except.error "lookup error: index out of range"
      | .ok _ => Except.error "lookup error: append is illegal before the last segment"
      | .error e => Except.error e) = .ok (l, c)) :
    ∃ i, l = Locator.index i ∧ resolve items s = .ok (Locator.index i) ∧ items[i]? = some c := by
  split at h
  · rename_i i hr
    split at h
    · rename_i child hc
      cases h
      exact ⟨i, rfl, hr, by rw [← List.get?_eq_getElem?]; exact hc⟩
    · cases h
  · cases h
  · cases h

theorem childAt_field_inv {node : Value} {f v : String} {l : Locator} {c : Value}
    (h : childAt node (Seg.field f v) = .ok (l, c)) :
    ∃ items i, node = .seq items ∧ l = Locator.index i ∧
      resolve items (Seg.field f v) = .ok (Locator.index i) ∧ items[i]? = some c := by
  cases node with
  | seq items =>
    simp only [childAt] at h
    obtain ⟨i, hl, hr, hc⟩ := childAt_seq_inv h
    exact ⟨items, i, rfl, hl, hr, hc⟩
  | null => simp [childAt] at h
  | bool b => simp [childAt] at h
  | num n => simp [childAt] at h
  | str t => simp [childAt] at h
  | map fields => simp [childAt] at h

theorem childAt_pattern_inv {node : Value} {pat : String} {l : Locator} {c : Value}
    (h : childAt node (Seg.pattern pat) = .ok (l, c)) :
    ∃ items i, node = .seq items ∧ l = Locator.index i ∧
      resolve items (Seg.pattern pat) = .ok (Locator.index i) ∧ items[i]? = some c := by
  cases node with
  | seq items =>
    simp only [childAt] at h
    obtain ⟨i, hl, hr, hc⟩ := childAt_seq_inv h
    exact ⟨items, i, rfl, hl, hr, hc⟩
  | null => simp [childAt] at h
  | bool b => simp [childAt] at h
  | num n => simp [childAt] at h
  | str t => simp [childAt] at h
  | map fields => simp [childAt] at h

theorem resolve_field_inv {items : List Value} {f v : String} {i : Nat}
    (h : resolve items (Seg.field f v) = .ok (Locator.index i)) :
    items.all isMapping = true ∧ firstIdx (matchesField f v) items = some i := by
  simp only [resolve] at h
  split at h
  · rename_i hall
    split at h
    · rename_i j hj
      cases h
      exact ⟨hall, hj⟩
    · cases h
  · cases h

theorem scanPattern_inv {items : List Value} {pat : String} {i : Nat}
    (h : scanPattern pat items = .ok (Locator.index i)) :
    firstIdx (matchesPattern pat) items = some i := by
  simp only [scanPattern] at h
  split at h
  · rename_i j hj
    cases h
    exact hj
  · cases h

theorem resolve_pattern_inv {items : List Value} {pat : String} {i : Nat}
    (h : resolve items (Seg.pattern pat) = .ok (Locator.index i)) :
    firstIdx (matchesPattern pat) items = some i := by
  simp only [resolve] at h
  split at h
  · split at h
    · cases h
    · exact scanPattern_inv h
  · exact scanPattern_inv h

/-- A node that renders as text is a scalar: no descent from it ends in a sequence. -/
theorem no_descend_from_scalar {c : Value} {t : String} (hr : render c = some t)
    {pre : List Seg} {locs : List Locator} {xs : List Value}
    (hd : descend c pre = .ok (locs, .seq xs)) : False := by
  cases pre with
  | nil =>
    simp only [descend] at hd
    cases hd
    simp [render] at hr
  | cons s rest =>
    simp only [descend] at hd
    split at hd
    · cases hd
    · rename_i l child hc
      cases s with
      | key k =>
        obtain ⟨fields, rfl, _, _⟩ := childAt_key_inv hc
        simp [render] at hr
      | field f v =>
        obtain ⟨items, i, rfl, _, _, _⟩ := childAt_field_inv hc
        simp [render] at hr
      | pattern pat =>
        obtain ⟨items, i, rfl, _, _, _⟩ := childAt_pattern_inv hc
        simp [render] at hr

/-- A mutation of a sequence below an element matched by a field selector leaves the element
matched: the field the selector reads is a scalar, so the path below goes through another
field. -/
theorem matchesField_rebuild {g : Value → Except String Value} {f v : String}
    {child child' : Value} {pre : List Seg} {t : List Locator} {xs : List Value}
    (hm : matchesField f v child = true) (hd : descend child pre = .ok (t, .seq xs))
    (hr : rebuild g child t = .ok child') :
    matchesField f v child' = true ∧ isMapping child' = true := by
  obtain ⟨fields, rfl⟩ := matchesField_map hm
  cases pre with
  | nil => simp only [descend] at hd; cases hd
  | cons s rest =>
    simp only [descend] at hd
    split at hd
    · cases hd
    · rename_i l c2 hc
      split at hd
      · cases hd
      · rename_i t' sub hd'
        cases hd
        cases s with
        | field f' v' => obtain ⟨items, i, h, _⟩ := childAt_field_inv hc; cases h
        | pattern pat => obtain ⟨items, i, h, _⟩ := childAt_pattern_inv hc; cases h
        | key k =>
          obtain ⟨fields', h, rfl, hget⟩ := childAt_key_inv hc
          cases h
          simp only [rebuild, getChild, hget] at hr
          split at hr
          · cases hr
          · rename_i c2' hr2
            simp only [setChild] at hr
            cases hr
            refine ⟨?_, rfl⟩
            by_cases hk : f = k
            · subst hk
              exfalso
              simp only [matchesField, hget] at hm
              cases hrend : render c2 with
              | none => simp [hrend] at hm
              | some txt => exact no_descend_from_scalar hrend hd'
            · simp only [matchesField, fieldGet_fieldSet_other _ _ hk] at hm ⊢
              exact hm

/-- Navigation to a sequence is stable under a mutation of that sequence into a sequence: the
same segments lead, through the same locators, to the mutated sequence. -/
theorem descend_rebuild_seq (g : Value → Except String Value) (xs ys : List Value)
    (hg : g (.seq xs) = .ok (.seq ys)) :
    ∀ (pre : List Seg) (root : Value) (locs : List Locator) (root' : Value),
      descend root pre = .ok (locs, .seq xs) → rebuild g root locs = .ok root' →
      descend root' pre = .ok (locs, .seq ys) := by
  intro pre
  induction pre with
  | nil =>
    intro root locs root' hd hr
    simp only [descend] at hd
    cases hd
    simp only [rebuild, hg] at hr
    cases hr
    rfl
  | cons s rest ih =>
    intro root locs root' hd hr
    simp only [descend] at hd
    split at hd
    · cases hd
    · rename_i l child hc
      split at hd
      · cases hd
      · rename_i t sub hd'
        cases hd
        simp only [rebuild, childAt_getChild hc] at hr
        split at hr
        · cases hr
        · rename_i child' hr'
          have ih' := ih child t child' hd' hr'
          cases s with
          | key k =>
            obtain ⟨fields, rfl, rfl, hget⟩ := childAt_key_inv hc
            simp only [setChild] at hr
            cases hr
            simp only [descend, childAt, fieldGet_fieldSet_same, ih']
          | field f v =>
            obtain ⟨items, i, rfl, rfl, hres, hi⟩ := childAt_field_inv hc
            obtain ⟨hall, hfirst⟩ := resolve_field_inv hres
            obtain ⟨⟨el, hel, hm⟩, hmin⟩ := (firstIdx_eq_some _ items i).1 hfirst
            have hlt : i < items.length := firstIdx_lt _ hfirst
            rw [hi] at hel
            cases hel
            obtain ⟨hm', hmap'⟩ := matchesField_rebuild hm hd' hr'
            simp only [setChild, if_pos hlt] at hr
            cases hr
            have hmaps' : ∀ e ∈ items.set i child', isMapping e = true := by
              intro e he
              rcases List.mem_or_eq_of_mem_set he with h | h
              · exact List.all_eq_true.1 hall e h
              · rw [h]; exact hmap'
            have hc' : childAt (.seq (items.set i child')) (Seg.field f v) =
                .ok (Locator.index i, child') := by
              apply childAt_field_first hmaps' (by simp [hlt]) hm'
              intro j hj b hb
              rw [List.getElem?_set_ne (Nat.ne_of_gt hj)] at hb
              exact hmin j hj b hb
            simp only [descend, hc', ih']
          | pattern pat =>
            obtain ⟨items, i, rfl, rfl, hres, hi⟩ := childAt_pattern_inv hc
            have hfirst := resolve_pattern_inv hres
            obtain ⟨⟨el, hel, hm⟩, _⟩ := (firstIdx_eq_some _ items i).1 hfirst
            rw [hi] at hel
            cases hel
            exfalso
            simp only [matchesPattern] at hm
            cases hrend : render child with
            | none => simp [hrend] at hm
            | some txt => exact no_descend_from_scalar hrend hd'

theorem patchValue_absent (deps : Deps) (p : K8sObjectOverlayPatch) (hv : p.Value = "")
    (hvb : p.Verbatim = "") : patchValue deps p = .ok (Value.null, true) := by
  simp [patchValue, hv, hvb, UnmarshalWithJSONPB]

/-- C7, counterexample: in a sequence where two elements are named `n1`, the patch
`b.[name:n1]` without value resolves, removes the first of the two, and the same path then
resolves again, to the second. -/
theorem delete_then_path_resolves_again :
    GetPathContext dupTree (PathFromString "b.[name:n1]") true =
      .ok ⟨dupTree, [Locator.field "b"], Locator.index 1⟩ ∧
    applyPatch demoDeps dupTree [] ⟨"b.[name:n1]", "", ""⟩ =
      (.map [("b", .seq [.map [("name", .str "n0"), ("value", .str "v0")],
        .map [("name", .str "n1"), ("value", .str "v9")]])], []) ∧
    GetPathContext
        (.map [("b", .seq [.map [("name", .str "n0"), ("value", .str "v0")],
          .map [("name", .str "n1"), ("value", .str "v9")]])])
        (PathFromString "b.[name:n1]") true =
      .ok ⟨.map [("b", .seq [.map [("name", .str "n0"), ("value", .str "v0")],
          .map [("name", .str "n1"), ("value", .str "v9")]])],
        [Locator.field "b"], Locator.index 1⟩ := by
  refine ⟨by rfl, by rfl, by rfl⟩

/-- C7, amended: a patch without value whose last segment is a selector that resolves to element
`i` of the sequence the path before leads to, where no other element of the sequence matches
the selector and a pattern that is an integer stays below the new length: the patch succeeds,
the sequence loses element `i` and keeps the others in order, and navigating to the same path
again is a lookup error. -/
theorem delete_only_match_unresolvable (deps : Deps) (root : Value) (errs : Errors)
    (p : K8sObjectOverlayPatch) (pre : List Seg) (sel : Seg) (locs : List Locator)
    (items : List Value) (i : Nat)
    (hsegs : parseSegs (PathFromString p.Path) = .ok (pre ++ [sel]))
    (hv : p.Value = "") (hvb : p.Verbatim = "")
    (hpre : descend root pre = .ok (locs, .seq items))
    (hres : resolve items sel = .ok (Locator.index i))
    (hothers : ∀ el ∈ items.eraseIdx i,
      (match sel with
        | .field f v => matchesField f v el
        | .pattern pat => matchesPattern pat el
        | .key _ => false) = false)
    (hnum : ∀ pat n, sel = Seg.pattern pat → parseNat pat = some n → n + 1 < items.length) :
    ∃ root', applyPatch deps root errs p = (root', errs) ∧
      getAt root' locs = .ok (.seq (items.eraseIdx i)) ∧
      ∃ e, GetPathContext root' (PathFromString p.Path) true = .error e := by
  have hlt : i < items.length := resolve_index_lt hres
  have hkey : ∀ k, sel ≠ Seg.key k := by
    rintro k rfl
    simp [resolve] at hres
  have hpath : TrimSpace p.Path ≠ "" := nonblank_of_segs hsegs (Or.inl hkey)
  have hval := patchValue_absent deps p hv hvb
  have hlast : ∀ xs : List Value, resolveLast (.seq xs) sel = resolve xs sel := by
    intro xs
    cases sel with
    | key k => exact absurd rfl (hkey k)
    | field f v => rfl
    | pattern pat => rfl
  have hnav : navigate (.seq items) [sel] = .ok ([], Locator.index i) := by
    simp only [navigate, hlast, hres]
  have hw : rebuild (fun c => writeChild deps c (Locator.index i) Value.null false true)
      (.seq items) [] = .ok (.seq (items.eraseIdx i)) := by
    simp only [rebuild, writeChild_absent, delChild, if_pos hlt]
  obtain ⟨root', happ, hget, hrb⟩ := applyPatch_under deps root errs p Value.null true pre sel
    [] locs [] (Locator.index i) (.seq items) _ hpath hval hsegs hpre hnav hw
  refine ⟨root', happ, hget, ?_⟩
  have hstable := descend_rebuild_seq _ items (items.eraseIdx i) hw pre root locs root' hpre hrb
  have hfail : ∃ e, resolve (items.eraseIdx i) sel = .error e := by
    cases sel with
    | key k => exact absurd rfl (hkey k)
    | field f v =>
      have hnone : firstIdx (matchesField f v) (items.eraseIdx i) = none :=
        (firstIdx_eq_none _ _).2 hothers
      simp only [resolve, hnone]
      split
      · exact ⟨_, rfl⟩
      · exact ⟨_, rfl⟩
    | pattern pat =>
      have hnone : firstIdx (matchesPattern pat) (items.eraseIdx i) = none :=
        (firstIdx_eq_none _ _).2 hothers
      have hscan : ∃ e, scanPattern pat (items.eraseIdx i) = .error e := by
        simp only [scanPattern, hnone]
        exact ⟨_, rfl⟩
      simp only [resolve]
      cases hn : parseNat pat with
      | none => exact hscan
      | some n =>
        have h1 := hnum pat n rfl hn
        have hlen : (items.eraseIdx i).length = items.length - 1 := by
          rw [List.length_eraseIdx]; simp [hlt]
        have : ¬ (items.eraseIdx i).length ≤ n := by omega
        simp only [this, if_false]
        exact hscan
  obtain ⟨e, he⟩ := hfail
  refine ⟨e, ?_⟩
  simp only [GetPathContext, hsegs, navigate_append pre root' locs _ sel [] hstable, navigate,
    hlast, he]

/-- C7 amended, witnessed on `DeleteListEntry`: `a.b.[name:n1]` leaves only `n2`. -/
theorem delete_only_match_unresolvable_witness :
    parseSegs (PathFromString "a.b.[name:n1]") =
      .ok ([Seg.key "a", Seg.key "b"] ++ [Seg.field "name" "n1"]) ∧
    descend baseTree [Seg.key "a", Seg.key "b"] =
      .ok ([Locator.field "a", Locator.field "b"],
        .seq [.map [("name", .str "n1"), ("value", .str "v1")],
          .map [("name", .str "n2"),
            ("list", .seq [.str "v1", .str "v2", .str "v3_regex"])]]) ∧
    ∃ root', applyPatch demoDeps baseTree [] ⟨"a.b.[name:n1]", "", ""⟩ = (root', []) ∧
      getAt root' [Locator.field "a", Locator.field "b"] =
        .ok (.seq ([Value.map [("name", .str "n1"), ("value", .str "v1")],
          .map [("name", .str "n2"),
            ("list", .seq [.str "v1", .str "v2", .str "v3_regex"])]].eraseIdx 0)) ∧
      ∃ e, GetPathContext root' (PathFromString "a.b.[name:n1]") true = .error e :=
  ⟨by rfl, by rfl,
    delete_only_match_unresolvable demoDeps baseTree [] ⟨"a.b.[name:n1]", "", ""⟩
      [Seg.key "a", Seg.key "b"] (Seg.field "name" "n1")
      [Locator.field "a", Locator.field "b"]
      [.map [("name", .str "n1"), ("value", .str "v1")],
        .map [("name", .str "n2"), ("list", .seq [.str "v1", .str "v2", .str "v3_regex"])]] 0
      (by rfl) rfl rfl (by rfl) (by rfl)
      (by
        intro el hel
        simp at hel
        subst hel
        rfl)
      (by intro pat n h; cases h)⟩

/-- C11: when the manifest parses into objects that serialize, the output is the concatenation,
in the order of the objects, of one document per object followed by the separator: the YAML
returned by `applyPatches` for the last overlay of the list that matches the object, and the
object's own YAML when no overlay matches it. -/
theorem output_one_document_per_object (deps : Deps) (heap : Addr → K8sObjectOverlay)
    (baseYAML defaultNamespace : String) (overlays : List Addr) (objs : List K8sObject)
    (hparse : deps.ParseK8sObjectsFromYAMLManifest baseYAML = .ok objs)
    (hser : ∀ o ∈ objs, ∃ y, o.YAML = .ok y) :
    (YAMLManifestPatch deps heap baseYAML defaultNamespace overlays).1 =
      String.join (objs.map (fun obj =>
        (match (overlays.filter
            (fun a => overlayMatches (heap a) obj defaultNamespace)).getLast? with
          | some a => (applyPatches deps obj (heap a).Patches).1
          | none =>
            match obj.YAML with
            | .ok oy => oy
            | .error _ => "") ++ deps.YAMLSeparator)) := by
  simp only [YAMLManifestPatch, hparse, runState, objectLoop_ret, String.empty_append]
  congr 1
  apply List.map_congr_left
  intro o ho
  obtain ⟨y, hy⟩ := hser o ho
  simp only [hy]

/-- C11, witnessed on the manifest of two ConfigMaps with an overlay that matches both. -/
theorem output_one_document_per_object_witness :
    twoDeps.ParseK8sObjectsFromYAMLManifest twoYAML = .ok [cmObject, cm0Object] ∧
    (YAMLManifestPatch twoDeps demoHeap twoYAML "ns" [0, 2]).1 =
      String.join ([cmObject, cm0Object].map (fun obj =>
        (match ([0, 2].filter (fun a => overlayMatches (demoHeap a) obj "ns")).getLast? with
          | some a => (applyPatches twoDeps obj (demoHeap a).Patches).1
          | none =>
            match obj.YAML with
            | .ok oy => oy
            | .error _ => "") ++ twoDeps.YAMLSeparator)) :=
  ⟨by rfl,
    output_one_document_per_object twoDeps demoHeap twoYAML "ns" [0, 2] [cmObject, cm0Object]
      (by rfl)
      (by
        intro o ho
        simp at ho
        rcases ho with rfl | rfl
        · exact ⟨cmYAML, rfl⟩
        · exact ⟨cm0YAML, rfl⟩)⟩

/-- C18: for a patch whose path is empty or white space only, one iteration of `applyPatches`
leaves the working tree as it is and records no error, except the error of decoding the value
of the patch, which is decoded before the path is looked at; a verbatim patch records none. -/
theorem blank_path_skipped (deps : Deps) (bo : Value) (errs : Errors)
    (p : K8sObjectOverlayPatch) (hblank : TrimSpace p.Path = "") :
    applyPatch deps bo errs p =
      (bo, match patchValue deps p with
        | .ok _ => errs
        | .error e => errs ++ [e]) ∧
    (p.Verbatim ≠ "" ∧ p.Value = "" → applyPatch deps bo errs p = (bo, errs)) := by
  have h1 : applyPatch deps bo errs p =
      (bo, match patchValue deps p with
        | .ok _ => errs
        | .error e => errs ++ [e]) := by
    unfold applyPatch
    cases hv : patchValue deps p with
    | error e => rfl
    | ok r =>
      obtain ⟨x, tu⟩ := r
      simp only [if_pos hblank]
  refine ⟨h1, ?_⟩
  intro hvb
  rw [h1]
  simp [patchValue, hvb]

/-- C18, witnessed on a verbatim patch whose path is blanks. -/
theorem blank_path_skipped_witness :
    TrimSpace "  \t" = "" ∧
    (applyPatch demoDeps cmTree [] ⟨"  \t", "", "text"⟩ =
      (cmTree, match patchValue demoDeps ⟨"  \t", "", "text"⟩ with
        | .ok _ => []
        | .error e => [] ++ [e]) ∧
    (("text" : String) ≠ "" ∧ ("" : String) = "" →
      applyPatch demoDeps cmTree [] ⟨"  \t", "", "text"⟩ = (cmTree, []))) :=
  ⟨by decide, blank_path_skipped demoDeps cmTree [] ⟨"  \t", "", "text"⟩ (by decide)⟩

/-- C15: `UnmarshalWithJSONPB` on the empty text returns nil and leaves the message as it is,
for every message and flag; so a patch with empty value and empty verbatim text has the nil
value, and when its path resolves the writer is called with it, for which the writer removes
the child at the location. -/
theorem empty_value_is_delete (deps : Deps) (bo : Value) (errs : Errors)
    (p : K8sObjectOverlayPatch) (inc : PathContext)
    (hv : p.Value = "") (hvb : p.Verbatim = "") (hpath : TrimSpace p.Path ≠ "")
    (hnav : GetPathContext bo (PathFromString p.Path) true = .ok inc) :
    (∀ (M : Type) (toJSON : String → Except String String)
        (unmarshal : Bool → String → M → Except String M) (out : M) (flag : Bool),
      UnmarshalWithJSONPB toJSON unmarshal "" out flag = (none, out)) ∧
    patchValue deps p = .ok (Value.null, true) ∧
    applyPatch deps bo errs p =
      (match WritePathContext deps inc Value.null false true with
        | .ok bo' => (bo', errs)
        | .error e => (bo, AppendErr errs (some e))) ∧
    WritePathContext deps inc Value.null false true =
      rebuild (fun container => delChild container inc.last) inc.root inc.trail := by
  refine ⟨fun M toJSON unmarshal out flag => by simp [UnmarshalWithJSONPB],
    patchValue_absent deps p hv hvb, ?_, rfl⟩
  simp only [applyPatch, patchValue_absent deps p hv hvb, if_neg hpath, hnav]
  cases WritePathContext deps inc Value.null false true <;> rfl

/-- C15, witnessed on `DeleteListEntry`. -/
theorem empty_value_is_delete_witness :
    GetPathContext baseTree (PathFromString "a.b.[name:n1]") true =
      .ok ⟨baseTree, [Locator.field "a", Locator.field "b"], Locator.index 0⟩ ∧
    ((∀ (M : Type) (toJSON : String → Except String String)
        (unmarshal : Bool → String → M → Except String M) (out : M) (flag : Bool),
      UnmarshalWithJSONPB toJSON unmarshal "" out flag = (none, out)) ∧
    patchValue demoDeps ⟨"a.b.[name:n1]", "", ""⟩ = .ok (Value.null, true) ∧
    applyPatch demoDeps baseTree [] ⟨"a.b.[name:n1]", "", ""⟩ =
      (match WritePathContext demoDeps
          ⟨baseTree, [Locator.field "a", Locator.field "b"], Locator.index 0⟩
          Value.null false true with
        | .ok bo' => (bo', [])
        | .error e => (baseTree, AppendErr [] (some e))) ∧
    WritePathContext demoDeps
        ⟨baseTree, [Locator.field "a", Locator.field "b"], Locator.index 0⟩
        Value.null false true =
      rebuild (fun container => delChild container (Locator.index 0)) baseTree
        [Locator.field "a", Locator.field "b"]) :=
  ⟨by rfl,
    empty_value_is_delete demoDeps baseTree [] ⟨"a.b.[name:n1]", "", ""⟩
      ⟨baseTree, [Locator.field "a", Locator.field "b"], Locator.index 0⟩
      rfl rfl (by decide) (by rfl)⟩

/-- The tree one iteration leaves does not depend on the errors collected before, and the
errors it returns are those collected before followed by its own. -/
theorem applyPatch_errs (deps : Deps) (bo : Value) (errs : Errors) (p : K8sObjectOverlayPatch) :
    (applyPatch deps bo errs p).1 = (applyPatch deps bo [] p).1 ∧
    (applyPatch deps bo errs p).2 = errs ++ (applyPatch deps bo [] p).2 := by
  unfold applyPatch
  cases patchValue deps p with
  | error e => simp [AppendErr]
  | ok r =>
    obtain ⟨x, tu⟩ := r
    by_cases hb : TrimSpace p.Path = ""
    · simp [hb]
    · simp only [if_neg hb]
      cases GetPathContext bo (PathFromString p.Path) true with
      | error e => simp [AppendErr]
      | ok inc =>
        cases hw : WritePathContext deps inc x false tu with
        | error e => simp [hw, AppendErr]
        | ok bo' => simp [hw]

/-- One iteration either adds no error, or adds exactly one and leaves the tree as it is. -/
theorem applyPatch_cases (deps : Deps) (bo : Value) (p : K8sObjectOverlayPatch) :
    (applyPatch deps bo [] p).2 = [] ∨ ∃ e, applyPatch deps bo [] p = (bo, [e]) := by
  unfold applyPatch
  cases patchValue deps p with
  | error e => exact Or.inr ⟨e, rfl⟩
  | ok r =>
    obtain ⟨x, tu⟩ := r
    by_cases hb : TrimSpace p.Path = ""
    · simp [hb]
    · simp only [if_neg hb]
      cases GetPathContext bo (PathFromString p.Path) true with
      | error e => exact Or.inr ⟨e, rfl⟩
      | ok inc =>
        cases hw : WritePathContext deps inc x false tu with
        | error e => exact Or.inr ⟨e, by simp [hw, AppendErr]⟩
        | ok bo' => exact Or.inl (by simp [hw])

theorem applyPatchesLoop_append (deps : Deps) :
    ∀ (l1 l2 : List K8sObjectOverlayPatch) (bo : Value) (errs : Errors),
      applyPatchesLoop deps bo errs (l1 ++ l2) =
        applyPatchesLoop deps (applyPatchesLoop deps bo errs l1).1
          (applyPatchesLoop deps bo errs l1).2 l2 := by
  intro l1
  induction l1 with
  | nil => intro l2 bo errs; rfl
  | cons p rest ih =>
    intro l2 bo errs
    simp only [List.cons_append, applyPatchesLoop]
    exact ih l2 _ _

theorem applyPatchesLoop_errs (deps : Deps) :
    ∀ (l : List K8sObjectOverlayPatch) (bo : Value) (errs : Errors),
      (applyPatchesLoop deps bo errs l).1 = (applyPatchesLoop deps bo [] l).1 ∧
      (applyPatchesLoop deps bo errs l).2 = errs ++ (applyPatchesLoop deps bo [] l).2 := by
  intro l
  induction l with
  | nil => intro bo errs; simp [applyPatchesLoop]
  | cons p rest ih =>
    intro bo errs
    simp only [applyPatchesLoop]
    obtain ⟨h1, h2⟩ := applyPatch_errs deps bo errs p
    rw [h1]
    constructor
    · rw [(ih _ (applyPatch deps bo errs p).2).1, (ih _ (applyPatch deps bo [] p).2).1]
    · rw [(ih _ (applyPatch deps bo errs p).2).2, (ih _ (applyPatch deps bo [] p).2).2, h2,
        List.append_assoc]

/-- C12: for an object that decodes, `applyPatches` returns the encoding of the tree left by
the loop together with the errors of the loop. The loop attempts every patch in order, each on
the tree left by the patches before it; an iteration either adds no error, or adds exactly one
error and leaves the tree as it is; and when a patch fails, the loop goes on with the patches
after it: the final tree is the one the list without the failing patch yields, and the errors
are those before, the error of the patch, and those of the patches after it. -/
theorem failing_patch_does_not_stop (deps : Deps) (base : K8sObject)
    (patches : List K8sObjectOverlayPatch) (yml : String) (bo : Value)
    (hy : base.YAML = .ok yml) (hu : deps.yamlUnmarshal yml = .ok bo) :
    applyPatches deps base patches =
      (match deps.yamlEncode (applyPatchesLoop deps bo [] patches).1 with
        | .ok out => (out, (applyPatchesLoop deps bo [] patches).2)
        | .error e => ("", (applyPatchesLoop deps bo [] patches).2 ++ [e])) ∧
    (∀ pre p post, patches = pre ++ p :: post →
      applyPatchesLoop deps bo [] patches =
        applyPatchesLoop deps
          (applyPatch deps (applyPatchesLoop deps bo [] pre).1
            (applyPatchesLoop deps bo [] pre).2 p).1
          (applyPatch deps (applyPatchesLoop deps bo [] pre).1
            (applyPatchesLoop deps bo [] pre).2 p).2 post) ∧
    (∀ t errs p, (applyPatch deps t errs p).2 = errs ∨
      ∃ e, applyPatch deps t errs p = (t, errs ++ [e])) ∧
    (∀ pre p post e, patches = pre ++ p :: post →
      applyPatch deps (applyPatchesLoop deps bo [] pre).1 [] p =
        ((applyPatchesLoop deps bo [] pre).1, [e]) →
      (applyPatchesLoop deps bo [] patches).1 = (applyPatchesLoop deps bo [] (pre ++ post)).1 ∧
      (applyPatchesLoop deps bo [] patches).2 =
        (applyPatchesLoop deps bo [] pre).2 ++ [e] ++
          (applyPatchesLoop deps (applyPatchesLoop deps bo [] pre).1 [] post).2) := by
  refine ⟨?_, ?_, ?_, ?_⟩
  · simp only [applyPatches, hy, hu]
    cases deps.yamlEncode (applyPatchesLoop deps bo [] patches).1 with
    | error e => simp [AppendErr]
    | ok out => rfl
  · intro pre p post h
    rw [h, applyPatchesLoop_append]
    rfl
  · intro t errs p
    obtain ⟨h1, h2⟩ := applyPatch_errs deps t errs p
    rcases applyPatch_cases deps t p with h | ⟨e, h⟩
    · left; rw [h2, h, List.append_nil]
    · right
      refine ⟨e, ?_⟩
      apply Prod.ext
      · rw [h1, h]
      · rw [h2, h]
  · intro pre p post e h hfail
    obtain ⟨h1, h2⟩ := applyPatch_errs deps (applyPatchesLoop deps bo [] pre).1
      (applyPatchesLoop deps bo [] pre).2 p
    rw [hfail] at h1 h2
    have hstep : applyPatchesLoop deps bo [] patches =
        applyPatchesLoop deps (applyPatchesLoop deps bo [] pre).1
          ((applyPatchesLoop deps bo [] pre).2 ++ [e]) post := by
      rw [h, applyPatchesLoop_append]
      simp only [applyPatchesLoop]
      rw [h1, h2]
    rw [hstep, applyPatchesLoop_append]
    constructor
    · rw [(applyPatchesLoop_errs deps post _ _).1,
        (applyPatchesLoop_errs deps post _ (applyPatchesLoop deps bo [] pre).2).1]
    · rw [(applyPatchesLoop_errs deps post _ _).2]

/-- C12, witnessed on the ConfigMap `cm` and a list whose first patch fails to navigate and whose
second patch is valid. -/
theorem failing_patch_does_not_stop_witness :
    cmObject.YAML = .ok cmYAML ∧ demoDeps.yamlUnmarshal cmYAML = .ok cmTree ∧
    applyPatches demoDeps cmObject [⟨"nope.x", "1", ""⟩, ⟨"data.b", "y", ""⟩] =
      (match demoDeps.yamlEncode
          (applyPatchesLoop demoDeps cmTree [] [⟨"nope.x", "1", ""⟩, ⟨"data.b", "y", ""⟩]).1 with
        | .ok out =>
          (out, (applyPatchesLoop demoDeps cmTree []
            [⟨"nope.x", "1", ""⟩, ⟨"data.b", "y", ""⟩]).2)
        | .error e =>
          ("", (applyPatchesLoop demoDeps cmTree []
            [⟨"nope.x", "1", ""⟩, ⟨"data.b", "y", ""⟩]).2 ++ [e])) ∧
    applyPatches demoDeps cmObject [⟨"nope.x", "1", ""⟩, ⟨"data.b", "y", ""⟩] =
      ("data:\n  a: x\n  b: y\nkind: ConfigMap\nmetadata:\n  name: cm\n  namespace: ns\n",
        ["lookup error: intermediate path missing: nope"]) :=
  ⟨rfl, rfl,
    (failing_patch_does_not_stop demoDeps cmObject [⟨"nope.x", "1", ""⟩, ⟨"data.b", "y", ""⟩]
      cmYAML cmTree rfl rfl).1,
    by decide⟩

theorem patchValue_both (deps : Deps) (p : K8sObjectOverlayPatch) (hv : p.Value ≠ "") :
    patchValue deps p = patchValue deps ⟨p.Path, p.Value, ""⟩ := by
  simp [patchValue, hv]

theorem applyPatch_both (deps : Deps) (bo : Value) (errs : Errors) (p : K8sObjectOverlayPatch)
    (hv : p.Value ≠ "") :
    applyPatch deps bo errs p = applyPatch deps bo errs ⟨p.Path, p.Value, ""⟩ := by
  simp only [applyPatch, patchValue_both deps p hv]

/-- C13, counterexample: an overlay matching the ConfigMap `cm` whose only patch sets `data.b`
with value `y` and verbatim `w`. The validation error is recorded, and the emitted document has
`b: y`; with the patch removed from the overlay the document is the original one. -/
theorem both_set_patch_is_applied :
    overlayMatches (bothHeap 0) cmObject "ns" = true ∧
    YAMLManifestPatch demoDeps bothHeap cmYAML "ns" [0] =
      ("data:\n  a: x\n  b: y\nkind: ConfigMap\nmetadata:\n  name: cm\n  namespace: ns\n\n---\n",
        some "value and verbatim cannot be used together in overlay 0 patch 0") ∧
    YAMLManifestPatch demoDeps noPatchHeap cmYAML "ns" [0] =
      ("data:\n  a: x\nkind: ConfigMap\nmetadata:\n  name: cm\n  namespace: ns\n\n---\n",
        none) := by
  refine ⟨by decide, by decide, by decide⟩

/-- C13, amended: for a patch that sets both value and verbatim, `validateOverlay` records the
validation error, and `applyPatches` still applies the patch, exactly as it applies the patch
with the same path and value and no verbatim text: the value is written, the verbatim text is
not. -/
theorem both_set_patch_applies_value (p : K8sObjectOverlayPatch)
    (hv : p.Value ≠ "") (hvb : p.Verbatim ≠ "") :
    (∀ (deps : Deps) (i j : Nat) (o : K8sObjectOverlay), o.Patches[j]? = some p →
      ∃ m, validateOverlay deps i o = some m ∧ Contains m (validationMsg i j)) ∧
    (∀ (deps : Deps) (bo : Value) (errs : Errors),
      applyPatch deps bo errs p = applyPatch deps bo errs ⟨p.Path, p.Value, ""⟩) ∧
    (∀ (deps : Deps) (base : K8sObject) (pre post : List K8sObjectOverlayPatch),
      applyPatches deps base (pre ++ p :: post) =
        applyPatches deps base (pre ++ ⟨p.Path, p.Value, ""⟩ :: post)) := by
  refine ⟨?_, fun deps bo errs => applyPatch_both deps bo errs p hv, ?_⟩
  · intro deps i j o hj
    have hjm : validationMsg i j ∈
        ((o.Patches.enumFrom 0).filter
          (fun q => decide (q.2.Value ≠ "" ∧ q.2.Verbatim ≠ ""))).map
          (fun q => validationMsg i q.1) := by
      apply List.mem_map.2
      refine ⟨(j, p), ?_, rfl⟩
      apply List.mem_filter.2
      exact ⟨List.mk_mem_enum_iff_getElem?.2 hj, by simp [hv, hvb]⟩
    obtain ⟨m, hm, hmc⟩ := @ToError_contains deps.errSeparator _ _ _ hjm (contains_refl _)
    refine ⟨m, ?_, hmc⟩
    simp only [validateOverlay, validateOverlayLoop_eq, List.nil_append]
    exact hm
  · intro deps base pre post
    have hloop : ∀ (bo : Value),
        applyPatchesLoop deps bo [] (pre ++ p :: post) =
          applyPatchesLoop deps bo [] (pre ++ ⟨p.Path, p.Value, ""⟩ :: post) := by
      intro bo
      rw [applyPatchesLoop_append, applyPatchesLoop_append]
      simp only [applyPatchesLoop, applyPatch_both deps _ _ p hv]
    simp only [applyPatches, hloop]

/-- C13 amended, witnessed on the patch with value `y` and verbatim `w`. -/
theorem both_set_patch_applies_value_witness :
    ("y" : String) ≠ "" ∧ ("w" : String) ≠ "" ∧
    (∀ (deps : Deps) (bo : Value) (errs : Errors),
      applyPatch deps bo errs ⟨"data.b", "y", "w"⟩ =
        applyPatch deps bo errs ⟨"data.b", "y", ""⟩) :=
  ⟨by decide, by decide,
    (both_set_patch_applies_value ⟨"data.b", "y", "w"⟩ (by decide) (by decide)).2.1⟩

/-- C14, counterexample: a manifest that does not parse, with the overlay of
`TestYAMLManifestPatchValidation`. The run returns at once with the parse error and an empty
output: the validation error of the overlay, which `validateOverlay` would report, is not in
the returned error. -/
theorem parse_failure_aborts_run :
    demoDeps.ParseK8sObjectsFromYAMLManifest ":" = .error "manifest outside the scenarios" ∧
    validateOverlay demoDeps 0 (invalidHeap 0) =
      some "value and verbatim cannot be used together in overlay 0 patch 0" ∧
    YAMLManifestPatch demoDeps invalidHeap ":" "" [0] =
      ("", some "manifest outside the scenarios") := by
  refine ⟨by rfl, by decide, by decide⟩

/-- C14, amended: when the manifest does not parse, the run returns at once with an empty
output and the parse error alone. When it parses, the run is never aborted: the output holds
the documents of the objects that serialize, and the error returned at the end aggregates, in
this order, the validation errors of all overlays, for each object its serialization error or
the errors of the patches of the overlays that match it, and the cardinality errors of all
overlays. -/
theorem run_aggregates_after_parse (deps : Deps) (heap : Addr → K8sObjectOverlay)
    (baseYAML defaultNamespace : String) (overlays : List Addr) :
    YAMLManifestPatch deps heap baseYAML defaultNamespace overlays =
      match deps.ParseK8sObjectsFromYAMLManifest baseYAML with
      | .error err => ("", some err)
      | .ok objs =>
        (String.join (objs.map (fun obj =>
            match obj.YAML with
            | .error _ => ""
            | .ok oy =>
              (match (overlays.filter
                  (fun a => overlayMatches (heap a) obj defaultNamespace)).getLast? with
                | some a => (applyPatches deps obj (heap a).Patches).1
                | none => oy) ++ deps.YAMLSeparator)),
          ToError deps.errSeparator
            (overlays.enum.filterMap (fun q => validateOverlay deps q.1 (heap q.2)) ++
              (objs.map (fun obj =>
                match obj.YAML with
                | .error err => [objectToYAMLMsg err obj.debug]
                | .ok _ =>
                  ((overlays.filter
                    (fun a => overlayMatches (heap a) obj defaultNamespace)).map
                    (fun a => (applyPatches deps obj (heap a).Patches).2)).flatten)).flatten ++
              overlays.filterMap (fun a => cardinalityErr (heap a)
                ((runState deps heap objs defaultNamespace overlays).matched a)
                (deps.Keys objs)))) := by
  unfold YAMLManifestPatch
  cases hp : deps.ParseK8sObjectsFromYAMLManifest baseYAML with
  | error e => rfl
  | ok objs =>
    simp only [runErrors_eq]
    simp only [runState, objectLoop_ret, String.empty_append]

theorem runState_matched (deps : Deps) (heap : Addr → K8sObjectOverlay)
    (objs : List K8sObject) (ns : String) (overlays : List Addr)
    (hser : ∀ o ∈ objs, ∃ y, o.YAML = .ok y) (hnd : overlays.Nodup) {a : Addr}
    (ha : a ∈ overlays) :
    (runState deps heap objs ns overlays).matched a =
      objs.filter (fun o => overlayMatches (heap a) o ns) := by
  simp only [runState, objectLoop_matched deps heap ns overlays hnd, if_pos ha, List.nil_append]
  apply List.filter_congr
  intro o ho
  obtain ⟨y, hy⟩ := hser o ho
  simp [hy]

theorem filter_eq_singleton {α : Type} (p : α → Bool) :
    ∀ (l : List α) (a : α), l.Nodup → a ∈ l → p a = true →
      (∀ b ∈ l, b ≠ a → p b = false) → l.filter p = [a] := by
  intro l
  induction l with
  | nil => intro a _ ha; cases ha
  | cons x rest ih =>
    intro a hnd ha hpa hothers
    obtain ⟨hx, hnd'⟩ := List.nodup_cons.1 hnd
    rcases List.mem_cons.1 ha with h | h
    · subst h
      rw [List.filter_cons_of_pos hpa]
      congr 1
      apply filter_eq_nil_of_forall
      intro b hb
      exact hothers b (List.mem_cons_of_mem _ hb) (fun hba => hx (hba ▸ hb))
    · have hxa : x ≠ a := fun hxa => hx (hxa ▸ h)
      have hpx : p x = false := hothers x (List.mem_cons_self _ _) hxa
      rw [List.filter_cons_of_neg (by simp [hpx])]
      exact ih a hnd' h hpa (fun b hb => hothers b (List.mem_cons_of_mem _ hb))

/-- C17, counterexample: a manifest with two ConfigMaps named `cm`, one in namespace `ns` and one
without namespace, and one overlay for `cm` that sets `data.b`. The overlay matches both
objects, the cardinality error is reported, and both emitted documents have `b: y`: the patches
of the overlay were applied to each of them. -/
theorem multiple_match_still_patched :
    overlayMatches (demoHeap 0) cmObject "ns" = true ∧
    overlayMatches (demoHeap 0) cm0Object "ns" = true ∧
    YAMLManifestPatch twoDeps demoHeap twoYAML "ns" [0] =
      ("data:\n  a: x\n  b: y\nkind: ConfigMap\nmetadata:\n  name: cm\n  namespace: ns\n\n---\n" ++
        "data:\n  a: w\n  b: y\nkind: ConfigMap\nmetadata:\n  name: cm\n\n---\n",
        some ("overlay for ConfigMap:cm matches multiple objects in output manifest:\n" ++
          "ConfigMap:ns:cm\nConfigMap::cm")) := by
  refine ⟨by decide, by decide, by decide⟩

/-- C17, amended: when the manifest parses into objects that serialize, the overlay pointers are
pairwise distinct and an overlay matches more than one object, the returned error contains the
match-cardinality message of the overlay, and the patches of the overlay have been applied all
the same: the document of every object that this overlay matches and no other overlay of the
list matches is the YAML `applyPatches` returns for the object and the patches of the overlay,
followed by the separator. -/
theorem multiple_match_reported_and_patched (deps : Deps) (heap : Addr → K8sObjectOverlay)
    (baseYAML defaultNamespace : String) (overlays : List Addr) (objs : List K8sObject)
    (a : Addr)
    (hparse : deps.ParseK8sObjectsFromYAMLManifest baseYAML = .ok objs)
    (hser : ∀ o ∈ objs, ∃ y, o.YAML = .ok y)
    (hnd : overlays.Nodup) (ha : a ∈ overlays)
    (hmulti : 1 < (objs.filter (fun o => overlayMatches (heap a) o defaultNamespace)).length) :
    (∃ msg, (YAMLManifestPatch deps heap baseYAML defaultNamespace overlays).2 = some msg ∧
      Contains msg (multipleMatchMsg (heap a).Kind (heap a).Name (deps.Keys objs))) ∧
    ∃ docs : List String,
      (YAMLManifestPatch deps heap baseYAML defaultNamespace overlays).1 = String.join docs ∧
      docs.length = objs.length ∧
      ∀ (k : Nat) (o : K8sObject), objs[k]? = some o →
        overlayMatches (heap a) o defaultNamespace = true →
        (∀ b ∈ overlays, b ≠ a → overlayMatches (heap b) o defaultNamespace = false) →
        docs[k]? = some ((applyPatches deps o (heap a).Patches).1 ++ deps.YAMLSeparator) := by
  constructor
  · have hcard : cardinalityErr (heap a)
        ((runState deps heap objs defaultNamespace overlays).matched a) (deps.Keys objs) =
        some (multipleMatchMsg (heap a).Kind (heap a).Name (deps.Keys objs)) := by
      rw [runState_matched deps heap objs defaultNamespace overlays hser hnd ha]
      unfold cardinalityErr
      have h0 : ¬ (objs.filter
          (fun o => overlayMatches (heap a) o defaultNamespace)).length = 0 := by omega
      rw [if_neg h0, if_pos hmulti]
    have hmem : multipleMatchMsg (heap a).Kind (heap a).Name (deps.Keys objs) ∈
        runErrors deps heap objs defaultNamespace overlays := by
      rw [runErrors_eq]
      apply List.mem_append_right
      exact List.mem_filterMap.2 ⟨a, ha, hcard⟩
    simp only [YAMLManifestPatch, hparse]
    exact ToError_contains hmem (contains_refl _)
  · refine ⟨objs.map (fun obj =>
        match obj.YAML with
        | .error _ => ""
        | .ok oy =>
          (match (overlays.filter
              (fun a => overlayMatches (heap a) obj defaultNamespace)).getLast? with
            | some a => (applyPatches deps obj (heap a).Patches).1
            | none => oy) ++ deps.YAMLSeparator), ?_, by simp, ?_⟩
    · simp only [YAMLManifestPatch, hparse, runState, objectLoop_ret, String.empty_append]
    · intro k o hk hm hothers
      obtain ⟨y, hy⟩ := hser o (List.mem_iff_getElem?.2 ⟨k, hk⟩)
      have hf : overlays.filter (fun b => overlayMatches (heap b) o defaultNamespace) = [a] :=
        filter_eq_singleton _ overlays a hnd ha hm hothers
      rw [List.getElem?_map, hk]
      simp only [Option.map_some', hy, hf, List.getLast?_singleton]

/-- C17 amended, witnessed on the manifest of two ConfigMaps and one overlay for `cm`. -/
theorem multiple_match_reported_and_patched_witness :
    twoDeps.ParseK8sObjectsFromYAMLManifest twoYAML = .ok [cmObject, cm0Object] ∧
    1 < ([cmObject, cm0Object].filter (fun o => overlayMatches (demoHeap 0) o "ns")).length ∧
    (∃ msg, (YAMLManifestPatch twoDeps demoHeap twoYAML "ns" [0]).2 = some msg ∧
      Contains msg (multipleMatchMsg (demoHeap 0).Kind (demoHeap 0).Name
        (twoDeps.Keys [cmObject, cm0Object]))) :=
  ⟨by rfl, by decide,
    (multiple_match_reported_and_patched twoDeps demoHeap twoYAML "ns" [0]
      [cmObject, cm0Object] 0 (by rfl)
      (by
        intro o ho
        simp at ho
        rcases ho with rfl | rfl
        · exact ⟨cmYAML, rfl⟩
        · exact ⟨cm0YAML, rfl⟩)
      (by decide) (by decide) (by decide)).1⟩

theorem isYAMLEmptyLoop_eq :
    ∀ (ls yc : List String), isYAMLEmptyLoop ls yc =
      yc ++ ls.filter (fun l =>
        !(HasPrefix (TrimSpace l) "#") && !(HasPrefix (TrimSpace l) "---")) := by
  intro ls
  induction ls with
  | nil => intro yc; simp [isYAMLEmptyLoop]
  | cons l rest ih =>
    intro yc
    by_cases h : HasPrefix (TrimSpace l) "#" = false ∧ HasPrefix (TrimSpace l) "---" = false
    · simp only [isYAMLEmptyLoop, if_pos h, ih]
      rw [List.filter_cons_of_pos (by simp [h.1, h.2])]
      simp
    · simp only [isYAMLEmptyLoop, if_neg h, ih]
      rw [List.filter_cons_of_neg]
      intro hk
      apply h
      simpa using hk

theorem splitLines_no_newline : ∀ (l : List Char), '\n' ∉ l → splitLines l = [l] := by
  intro l
  induction l with
  | nil => intro _; rfl
  | cons c rest ih =>
    intro h
    have hc : c ≠ '\n' := fun hc => h (hc ▸ List.mem_cons_self _ _)
    have hr : '\n' ∉ rest := fun hr => h (List.mem_cons_of_mem _ hr)
    simp only [splitLines, if_neg hc, ih hr]

theorem splitLines_append : ∀ (l cs : List Char), '\n' ∉ l →
    splitLines (l ++ '\n' :: cs) = l :: splitLines cs := by
  intro l
  induction l with
  | nil => intro cs _; simp [splitLines]
  | cons c rest ih =>
    intro cs h
    have hc : c ≠ '\n' := fun hc => h (hc ▸ List.mem_cons_self _ _)
    have hr : '\n' ∉ rest := fun hr => h (List.mem_cons_of_mem _ hr)
    have h1 := ih cs hr
    simp only [List.cons_append, splitLines, if_neg hc]
    simp only [List.append_eq] at h1 ⊢
    rw [h1]

/-- Splitting the join of lines without line feed gives the lines back. -/
theorem SplitLines_Join : ∀ (L : List String), L ≠ [] → (∀ l ∈ L, '\n' ∉ l.data) →
    SplitLines (Join L "\n") = L := by
  intro L
  induction L with
  | nil => intro h; exact absurd rfl h
  | cons a rest ih =>
    intro _ hall
    have ha : '\n' ∉ a.data := hall a (List.mem_cons_self _ _)
    cases rest with
    | nil =>
      simp only [Join, SplitLines, splitLines_no_newline a.data ha, List.map_cons, List.map_nil]
    | cons b rest' =>
      have ih' := ih (by simp) (fun l hl => hall l (List.mem_cons_of_mem _ hl))
      simp only [SplitLines] at ih' ⊢
      simp only [Join, String.data_append]
      rw [List.append_assoc, List.singleton_append, splitLines_append _ _ ha, List.map_cons,
        ih']

/-- C16: `IsYAMLEmpty y` holds exactly when the lines of `y` that are neither comments nor
document separators (their trimmed text starts with neither `#` nor `---`), joined again and
trimmed, are the empty string or the empty mapping; hence a whole comment or separator line
put between, before or after lines, or taken out, does not change the result. -/
theorem IsYAMLEmpty_iff :
    (∀ y : String, IsYAMLEmpty y = true ↔
      (TrimSpace (Join ((SplitLines y).filter (fun l =>
          !(HasPrefix (TrimSpace l) "#") && !(HasPrefix (TrimSpace l) "---"))) "\n") = "" ∨
        TrimSpace (Join ((SplitLines y).filter (fun l =>
          !(HasPrefix (TrimSpace l) "#") && !(HasPrefix (TrimSpace l) "---"))) "\n") =
            "\x7b\x7d")) ∧
    (∀ (pre post : List String) (c : String),
      (∀ l ∈ pre ++ c :: post, '\n' ∉ l.data) →
      (HasPrefix (TrimSpace c) "#" = true ∨ HasPrefix (TrimSpace c) "---" = true) →
      IsYAMLEmpty (Join (pre ++ c :: post) "\n") = IsYAMLEmpty (Join (pre ++ post) "\n")) := by
  have hdef : ∀ y : String, IsYAMLEmpty y =
      (decide (TrimSpace (Join ((SplitLines y).filter (fun l =>
          !(HasPrefix (TrimSpace l) "#") && !(HasPrefix (TrimSpace l) "---"))) "\n") =
            "\x7b\x7d") ||
        decide (TrimSpace (Join ((SplitLines y).filter (fun l =>
          !(HasPrefix (TrimSpace l) "#") && !(HasPrefix (TrimSpace l) "---"))) "\n") = "")) := by
    intro y
    simp only [IsYAMLEmpty, isYAMLEmptyLoop_eq, List.nil_append]
  constructor
  · intro y
    rw [hdef y, Bool.or_eq_true, decide_eq_true_iff, decide_eq_true_iff]
    exact Or.comm
  · intro pre post c hall hc
    have hkeep : (!(HasPrefix (TrimSpace c) "#") && !(HasPrefix (TrimSpace c) "---")) = false := by
      rcases hc with h | h <;> simp [h]
    have hall' : ∀ l ∈ pre ++ post, '\n' ∉ l.data := by
      intro l hl
      apply hall l
      rcases List.mem_append.1 hl with h | h
      · exact List.mem_append_left _ h
      · exact List.mem_append_right _ (List.mem_cons_of_mem _ h)
    rw [hdef, hdef, SplitLines_Join (pre ++ c :: post) (by simp) hall]
    have hfilter : (pre ++ c :: post).filter (fun l =>
        !(HasPrefix (TrimSpace l) "#") && !(HasPrefix (TrimSpace l) "---")) =
        (pre ++ post).filter (fun l =>
          !(HasPrefix (TrimSpace l) "#") && !(HasPrefix (TrimSpace l) "---")) := by
      rw [List.filter_append, List.filter_append, List.filter_cons_of_neg (by simp [hkeep])]
    rw [hfilter]
    by_cases hne : pre ++ post = []
    · rw [hne]
      decide
    · rw [SplitLines_Join (pre ++ post) hne hall']

/-- C16, witnessed on an empty mapping between which a comment line is put. -/
theorem IsYAMLEmpty_iff_witness :
    (∀ l ∈ ["---"] ++ "# note" :: ["\x7b\x7d", ""], '\n' ∉ l.data) ∧
    HasPrefix (TrimSpace "# note") "#" = true ∧
    IsYAMLEmpty (Join (["---"] ++ "# note" :: ["\x7b\x7d", ""]) "\n") =
      IsYAMLEmpty (Join (["---"] ++ ["\x7b\x7d", ""]) "\n") ∧
    IsYAMLEmpty "---\n# note\n\x7b\x7d\n" = true :=
  ⟨by decide, by decide,
    IsYAMLEmpty_iff.2 ["---"] ["\x7b\x7d", ""] "# note" (by decide) (Or.inl (by decide)),
    by decide⟩

end OverlayPatch
